import Mathlib

/-
Verification of the MongoDB document-store lab (model1.py, model2.py, model3.py).

The three Python classes generate synthetic Company/Person data under three
physical layouts (Referenced, EmbeddedSingle, EmbeddedArray), load it into a
collection in batches, and run four queries (Q1-Q4).  Below, each generator and
query is shallowly embedded as a pure Lean function: the opaque fake-value
provider becomes an indexed `Provider`, `datetime.now()` becomes an explicit
`today : Date`, MongoDB becomes an explicit collection value (a list of
id-tagged documents; the store itself guarantees `_id` uniqueness, modelled
here by sequentially assigned identifiers), and Python exceptions become
`Except` values carrying the store state at the point the exception is raised.
-/

namespace MongoLab

/-- Calendar date (year, month, day).  The Python code stores
`datetime.combine(dob, datetime.min.time())`, so every stored datetime is
determined by its date triple and compares lexicographically. -/
structure Date where
  year : Nat
  month : Nat
  day : Nat
  deriving DecidableEq, Repr, Inhabited

/-- Python tuple comparison `(a.1, a.2) < (b.1, b.2)`, as used in
`(datetime.now().month, datetime.now().day) < (dob.month, dob.day)`. -/
def pairLt (a b : Nat × Nat) : Bool :=
  decide (a.1 < b.1) || (decide (a.1 = b.1) && decide (a.2 < b.2))

/-- Lexicographic comparison of dates, i.e. Python `datetime` `<` restricted to
the midnight datetimes the generators store. -/
def dateLt (a b : Date) : Bool :=
  decide (a.year < b.year) ||
    (decide (a.year = b.year) && pairLt (a.month, a.day) (b.month, b.day))

/-- The Q3 cutoff `datetime(1988, 1, 1)`. -/
def cutoff : Date := ⟨1988, 1, 1⟩

/-- Age derivation used by all three generators:
`datetime.now().year - dob.year - ((now.month, now.day) < (dob.month, dob.day))`
(a Python bool used as 0/1). -/
def computeAge (today dob : Date) : Int :=
  (today.year : Int) - (dob.year : Int) -
    (if pairLt (today.month, today.day) (dob.month, dob.day) then 1 else 0)

/-- Company fields produced by the fake-value provider (model1 lines 39-46,
model2 lines 40-46, model3 lines 49-57; the `type` discriminator and the
`employees` list are layout-specific and added by the respective documents). -/
structure Company where
  domain : String
  email : String
  name : String
  url : String
  vatNumber : String
  deriving DecidableEq, Repr, Inhabited

/-- Provider outputs consumed to build one person (everything except the
derived `age`). -/
structure PersonSeed where
  dob : Date
  companyEmail : String
  email : String
  firstName : String
  fullName : String
  sex : String
  deriving DecidableEq, Repr, Inhabited

/-- Person fields as stored (model1 lines 73-83 minus `type`/`company_id`). -/
structure Person where
  age : Int
  companyEmail : String
  dateOfBirth : Date
  email : String
  firstName : String
  fullName : String
  sex : String
  deriving DecidableEq, Repr, Inhabited

/-- Build one stored person from the generation date and the provider draws,
deriving `age` exactly as the source does. -/
def mkPerson (today : Date) (s : PersonSeed) : Person :=
  { age := computeAge today s.dob
    companyEmail := s.companyEmail
    dateOfBirth := s.dob
    email := s.email
    firstName := s.firstName
    fullName := s.fullName
    sex := s.sex }

/-- The opaque fake-value provider (Faker plus `random.choice`), indexed so the
embedding is deterministic: `company i` is the i-th generated company's field
block, `person i j` the draws for the j-th employee of company i. -/
structure Provider where
  company : Nat → Company
  person : Nat → Nat → PersonSeed

/-- Per-company employee count: `employees_per_company + (1 if i <
extra_employees else 0)` with `employees_per_company = n_people //
n_companies` and `extra_employees = n_people % n_companies` (model1 lines
55-65, model2 lines 52-61, model3 lines 37-46). -/
def numEmployees (nPeople nCompanies i : Nat) : Nat :=
  nPeople / nCompanies + (if i < nPeople % nCompanies then 1 else 0)

/-- The whole employee distribution, in company generation order. -/
def distribution (nPeople nCompanies : Nat) : List Nat :=
  (List.range nCompanies).map (numEmployees nPeople nCompanies)

theorem sum_range_base_ite (base r : Nat) :
    ∀ m, ((List.range m).map (fun i => base + if i < r then 1 else 0)).sum
      = m * base + min r m := by
  intro m
  induction m with
  | zero => simp
  | succ k ih =>
      rw [List.range_succ, List.map_append, List.sum_append, ih]
      simp only [List.map_cons, List.map_nil, List.sum_cons, List.sum_nil, Nat.succ_mul]
      rcases Nat.lt_or_ge k r with h | h
      · rw [if_pos h, Nat.min_eq_right (by omega), Nat.min_eq_right (by omega)]
        omega
      · rw [if_neg (by omega), Nat.min_eq_left h, Nat.min_eq_left (by omega)]
        omega

theorem distribution_length (n m : Nat) : (distribution n m).length = m := by
  simp [distribution]

theorem distribution_sum (n m : Nat) (h : 1 ≤ m) : (distribution n m).sum = n := by
  have hmod : n % m < m := Nat.mod_lt _ h
  have h2 : distribution n m
      = (List.range m).map (fun i => n / m + if i < n % m then 1 else 0) := rfl
  rw [h2, sum_range_base_ite, Nat.min_eq_left (Nat.le_of_lt hmod)]
  exact Nat.div_add_mod n m

theorem distribution_getD (n m i : Nat) (hi : i < m) :
    (distribution n m).getD i 0 = numEmployees n m i := by
  have hlen : i < (distribution n m).length := by
    rw [distribution_length]; exact hi
  rw [List.getD_eq_getElem _ _ hlen]
  simp [distribution]

theorem distribution_mem (n m : Nat) (x : Nat) (hx : x ∈ distribution n m) :
    x = n / m ∨ x = n / m + 1 := by
  simp only [distribution, List.mem_map, List.mem_range] at hx
  obtain ⟨i, _, rfl⟩ := hx
  by_cases h : i < n % m <;> simp [numEmployees, h]

/-- C1: for `n_people ≥ 0` and `n_companies ≥ 1`, the per-company employee
counts computed inside each model's `data_generator` form a sequence of length
`n_companies` summing to `n_people`, whose entry i is `floor + 1` for the first
`n_people mod n_companies` companies and `floor` afterwards, any two entries
differing by at most 1.  The computation is a pure function (no randomness). -/
theorem C1_employee_distribution (nPeople nCompanies : Nat) (h : 1 ≤ nCompanies) :
    (distribution nPeople nCompanies).length = nCompanies ∧
    (distribution nPeople nCompanies).sum = nPeople ∧
    (∀ i, i < nCompanies →
      (distribution nPeople nCompanies).getD i 0 =
        (if i < nPeople % nCompanies then nPeople / nCompanies + 1
         else nPeople / nCompanies)) ∧
    (∀ x ∈ distribution nPeople nCompanies,
      ∀ y ∈ distribution nPeople nCompanies, x ≤ y + 1) := by
  refine ⟨distribution_length _ _, distribution_sum _ _ h, ?_, ?_⟩
  · intro i hi
    rw [distribution_getD _ _ _ hi]
    by_cases hc : i < nPeople % nCompanies <;> simp [numEmployees, hc]
  · intro x hx y hy
    rcases distribution_mem _ _ _ hx with rfl | rfl <;>
      rcases distribution_mem _ _ _ hy with h' | h' <;> omega

/-- Closed instance of C1 at `n_people = 10`, `n_companies = 3`
(the spec's end-to-end distribution `[4, 3, 3]`). -/
theorem C1_employee_distribution_witness :
    1 ≤ 3 ∧
    ((distribution 10 3).length = 3 ∧
    (distribution 10 3).sum = 10 ∧
    (∀ i, i < 3 →
      (distribution 10 3).getD i 0 =
        (if i < 10 % 3 then 10 / 3 + 1 else 10 / 3)) ∧
    (∀ x ∈ distribution 10 3, ∀ y ∈ distribution 10 3, x ≤ y + 1)) :=
  ⟨by decide, C1_employee_distribution 10 3 (by decide)⟩

/-- Python exceptions the loads can raise: `ZeroDivisionError` from `//` and
`%` with `n_companies = 0`, and pymongo's `InvalidOperation` on
`insert_many([])` (an empty bulk write). -/
inductive PyError
  | zeroDivisionError
  | emptyBulkWrite
  deriving DecidableEq, Repr

/-- Python integer floor division, fallible at divisor 0. -/
def pyDiv (a b : Nat) : Except PyError Nat :=
  if b = 0 then .error .zeroDivisionError else .ok (a / b)

/-- Python integer modulo, fallible at divisor 0. -/
def pyMod (a b : Nat) : Except PyError Nat :=
  if b = 0 then .error .zeroDivisionError else .ok (a % b)

/-- Tag documents with identifiers `start, start+1, ...`, modelling the unique
`_id` values the store assigns on insertion. -/
def withIds (start : Nat) : List β → List (Nat × β)
  | [] => []
  | b :: bs => (start, b) :: withIds (start + 1) bs

/-- `insert_many`: rejects an empty document list (pymongo raises
`InvalidOperation`), otherwise appends the documents with fresh identifiers
and returns the collection plus the inserted ids. -/
def insertMany (coll : List (Nat × β)) (bodies : List β) :
    Except PyError (List (Nat × β) × List Nat) :=
  if bodies.isEmpty then .error .emptyBulkWrite
  else .ok (coll ++ withIds coll.length bodies,
            (withIds coll.length bodies).map Prod.fst)

/-- One iteration of the generation loop's buffering: append the new document,
then flush (and clear) when `len(buffer) >= batch_size` (model1 lines 84-91,
model2 lines 79-86, model3 lines 77-84).  The state is (flushed batches so
far, current buffer). -/
def bstep (batchSize : Nat) (acc : List (List α) × List α) (d : α) :
    List (List α) × List α :=
  let buf := acc.2 ++ [d]
  if batchSize ≤ buf.length then (acc.1 ++ [buf], []) else (acc.1, buf)

/-- Run the buffering loop over all generated documents. -/
def bflushes (batchSize : Nat) (docs : List α) : List (List α) × List α :=
  docs.foldl (bstep batchSize) ([], [])

/-- The full batch pipeline: the in-loop flushes followed by the final
`if buffer: insert_many(buffer)` flush of a non-empty remainder. -/
def batchWriter (batchSize : Nat) (docs : List α) : List (List α) :=
  let r := bflushes batchSize docs
  if r.2.isEmpty then r.1 else r.1 ++ [r.2]

/-- Perform the sequence of `insert_many` calls the batch loop issues; on
failure the collection state reached so far is returned with the error. -/
def insertFlushes (coll : List (Nat × β)) :
    List (List β) → Except (PyError × List (Nat × β)) (List (Nat × β))
  | [] => .ok coll
  | f :: fs =>
    match insertMany coll f with
    | .error e => .error (e, coll)
    | .ok (coll2, _) => insertFlushes coll2 fs

/-- Referenced layout (model1): a document is either a company or a person
carrying the `_id` of its company; the `type` discriminator is reflected in
the constructor. -/
inductive Doc1Body
  | company (c : Company)
  | person (p : Person) (companyId : Nat)
  deriving DecidableEq, Repr

/-- A stored model1 document: `_id` plus body. -/
abbrev Doc1 := Nat × Doc1Body

/-- EmbeddedSingle layout (model2): every document is a person with an
embedded copy of its company (the constant `type: "person"` field is implied
by the shape). -/
structure PersonEmb where
  person : Person
  company : Company
  deriving DecidableEq, Repr, Inhabited

/-- EmbeddedArray layout (model3): every document is a company with the list
of its embedded employees (the constant `type: "company"` field is implied by
the shape). -/
structure CompanyEmb where
  company : Company
  employees : List Person
  deriving DecidableEq, Repr, Inhabited

/-- model1 `data_generator` load phase (lines 25-97): drop and recreate the
collection, generate and insert the companies (capturing their ids), compute
the distribution, then generate the persons company by company and insert them
through the batch buffer.  Errors carry the collection contents at the moment
the exception is raised; `_prev` is the collection left by the previous run,
destroyed by `drop_collection`. -/
def model1_load (nPeople nCompanies batchSize : Nat) (prov : Provider)
    (today : Date) (_prev : Option (List Doc1)) :
    Except (PyError × Option (List Doc1)) (Option (List Doc1)) :=
  let coll : List Doc1 := []
  let companies := (List.range nCompanies).map (fun i => Doc1Body.company (prov.company i))
  match insertMany coll companies with
  | .error e => .error (e, some coll)
  | .ok (coll1, companyIds) =>
    match pyDiv nPeople nCompanies, pyMod nPeople nCompanies with
    | .error e, _ => .error (e, some coll1)
    | .ok _, .error e => .error (e, some coll1)
    | .ok base, .ok extra =>
      let personBodies := (List.range companyIds.length).flatMap (fun i =>
        (List.range (base + if i < extra then 1 else 0)).map (fun j =>
          Doc1Body.person (mkPerson today (prov.person i j)) (companyIds.getD i 0)))
      match insertFlushes coll1 (batchWriter batchSize personBodies) with
      | .error (e, collE) => .error (e, some collE)
      | .ok coll2 => .ok (some coll2)

/-- model2 `data_generator` load phase (lines 27-97): drop and recreate the
collection, build the in-memory company templates, compute the distribution,
then generate persons with their embedded company and insert them through the
batch buffer. -/
def model2_load (nPeople nCompanies batchSize : Nat) (prov : Provider)
    (today : Date) (_prev : Option (List (Nat × PersonEmb))) :
    Except (PyError × Option (List (Nat × PersonEmb))) (Option (List (Nat × PersonEmb))) :=
  let coll : List (Nat × PersonEmb) := []
  let companies := (List.range nCompanies).map (fun i => prov.company i)
  match pyDiv nPeople nCompanies, pyMod nPeople nCompanies with
  | .error e, _ => .error (e, some coll)
  | .ok _, .error e => .error (e, some coll)
  | .ok base, .ok extra =>
    let personBodies := (List.range companies.length).flatMap (fun i =>
      (List.range (base + if i < extra then 1 else 0)).map (fun j =>
        PersonEmb.mk (mkPerson today (prov.person i j)) (companies.getD i default)))
    match insertFlushes coll (batchWriter batchSize personBodies) with
    | .error (e, collE) => .error (e, some collE)
    | .ok coll2 => .ok (some coll2)

/-- model3 `data_generator` load phase (lines 27-94): drop and recreate the
collection, compute the distribution, then build one company document with its
embedded employee list per company and insert the company documents through
the batch buffer. -/
def model3_load (nPeople nCompanies batchSize : Nat) (prov : Provider)
    (today : Date) (_prev : Option (List (Nat × CompanyEmb))) :
    Except (PyError × Option (List (Nat × CompanyEmb))) (Option (List (Nat × CompanyEmb))) :=
  let coll : List (Nat × CompanyEmb) := []
  match pyDiv nPeople nCompanies, pyMod nPeople nCompanies with
  | .error e, _ => .error (e, some coll)
  | .ok _, .error e => .error (e, some coll)
  | .ok base, .ok extra =>
    let companyDocs := (List.range nCompanies).map (fun i =>
      CompanyEmb.mk (prov.company i)
        ((List.range (base + if i < extra then 1 else 0)).map (fun j =>
          mkPerson today (prov.person i j))))
    match insertFlushes coll (batchWriter batchSize companyDocs) with
    | .error (e, collE) => .error (e, some collE)
    | .ok coll2 => .ok (some coll2)

/-- Company bodies generated by model1, in generation order. -/
def companyBodies1 (m : Nat) (prov : Provider) : List Doc1Body :=
  (List.range m).map (fun i => Doc1Body.company (prov.company i))

/-- Person bodies generated by model1, company-major then employee-minor. -/
def personBodies1 (n m : Nat) (prov : Provider) (today : Date) : List Doc1Body :=
  (List.range m).flatMap (fun i =>
    (List.range (numEmployees n m i)).map (fun j =>
      Doc1Body.person (mkPerson today (prov.person i j)) i))

/-- The collection a successful model1 run leaves behind. -/
def docs1 (n m : Nat) (prov : Provider) (today : Date) : List Doc1 :=
  withIds 0 (companyBodies1 m prov ++ personBodies1 n m prov today)

/-- The collection a successful model2 run leaves behind. -/
def docs2 (n m : Nat) (prov : Provider) (today : Date) : List (Nat × PersonEmb) :=
  withIds 0 ((List.range m).flatMap (fun i =>
    (List.range (numEmployees n m i)).map (fun j =>
      PersonEmb.mk (mkPerson today (prov.person i j)) (prov.company i))))

/-- The collection a successful model3 run leaves behind. -/
def docs3 (n m : Nat) (prov : Provider) (today : Date) : List (Nat × CompanyEmb) :=
  withIds 0 ((List.range m).map (fun i =>
    CompanyEmb.mk (prov.company i)
      ((List.range (numEmployees n m i)).map (fun j =>
        mkPerson today (prov.person i j)))))

theorem withIds_length (k : Nat) (l : List β) : (withIds k l).length = l.length := by
  induction l generalizing k with
  | nil => rfl
  | cons b bs ih => simp [withIds, ih]

theorem withIds_append (k : Nat) (a b : List β) :
    withIds k (a ++ b) = withIds k a ++ withIds (k + a.length) b := by
  induction a generalizing k with
  | nil => simp [withIds]
  | cons x xs ih =>
      simp only [List.cons_append, withIds, List.length_cons, List.append_eq]
      rw [ih]
      have harith : k + 1 + xs.length = k + (xs.length + 1) := by omega
      rw [harith]

theorem mem_withIds {d : Nat × β} (k : Nat) (l : List β) (h : d ∈ withIds k l) :
    d.2 ∈ l := by
  induction l generalizing k with
  | nil => cases h
  | cons b bs ih =>
      simp only [withIds, List.mem_cons] at h
      rcases h with rfl | h
      · simp
      · exact List.mem_cons_of_mem _ (ih _ h)

theorem withIds_fst_getD (k i : Nat) (l : List β) (h : i < l.length) :
    ((withIds k l).map Prod.fst).getD i 0 = k + i := by
  induction l generalizing k i with
  | nil => simp at h
  | cons b bs ih =>
      cases i with
      | zero => simp [withIds]
      | succ j =>
          simp only [withIds, List.map_cons, List.getD_cons_succ]
          rw [ih k.succ j (by simpa using Nat.lt_of_succ_lt_succ h)]
          omega

theorem countP_fst_withIds (c k : Nat) (l : List β) :
    (withIds k l).countP (fun d => d.1 == c)
      = if k ≤ c ∧ c < k + l.length then 1 else 0 := by
  induction l generalizing k with
  | nil =>
      simp only [withIds, List.countP_nil, List.length_nil]
      split_ifs <;> omega
  | cons b bs ih =>
      simp only [withIds, List.countP_cons, ih, beq_iff_eq, List.length_cons]
      split_ifs <;> omega

theorem bfold_props (bs : Nat) (docs : List α) :
    ∀ (fs : List (List α)) (buf : List α),
      ((docs.foldl (bstep bs) (fs, buf)).1.flatten ++ (docs.foldl (bstep bs) (fs, buf)).2
        = fs.flatten ++ buf ++ docs)
      ∧ (∀ f ∈ (docs.foldl (bstep bs) (fs, buf)).1, f ∈ fs ∨ f ≠ []) := by
  induction docs with
  | nil =>
      intro fs buf
      exact ⟨by simp, fun f hf => .inl hf⟩
  | cons d ds ih =>
      intro fs buf
      simp only [List.foldl_cons]
      by_cases hc : bs ≤ (buf ++ [d]).length
      · have hc' : bs ≤ buf.length + 1 := by simpa using hc
        have hstep : bstep bs (fs, buf) d = (fs ++ [buf ++ [d]], []) := by
          simp [bstep, hc']
        rw [hstep]
        obtain ⟨h1, h3⟩ := ih (fs ++ [buf ++ [d]]) []
        refine ⟨by rw [h1]; simp, ?_⟩
        intro f hf
        rcases h3 f hf with hmem | hne
        · rcases List.mem_append.mp hmem with h' | h'
          · exact .inl h'
          · right
            simp only [List.mem_singleton] at h'
            subst h'
            simp
        · exact .inr hne
      · have hc' : ¬ bs ≤ buf.length + 1 := by simpa using hc
        have hstep : bstep bs (fs, buf) d = (fs, buf ++ [d]) := by
          simp [bstep, hc']
        rw [hstep]
        obtain ⟨h1, h3⟩ := ih fs (buf ++ [d])
        exact ⟨by rw [h1]; simp, h3⟩

theorem batchWriter_flatten (bs : Nat) (docs : List α) :
    (batchWriter bs docs).flatten = docs := by
  have h := (bfold_props bs docs [] []).1
  simp only [List.flatten_nil, List.nil_append] at h
  unfold batchWriter bflushes
  by_cases he : (docs.foldl (bstep bs) ([], [])).2.isEmpty
  · rw [List.isEmpty_iff] at he
    simp only [he, List.append_nil] at h
    simp [bflushes, he, h]
  · simp only [List.isEmpty_iff] at he
    simp [bflushes, he, h, List.flatten_append]

theorem batchWriter_ne_nil (bs : Nat) (docs : List α) :
    ∀ f ∈ batchWriter bs docs, f ≠ [] := by
  have h := (bfold_props bs docs [] []).2
  unfold batchWriter bflushes
  intro f hf
  by_cases he : (docs.foldl (bstep bs) ([], [])).2.isEmpty
  · simp only [he, if_pos] at hf
    rcases h f hf with hmem | hne
    · cases hmem
    · exact hne
  · simp only [he, if_neg, Bool.false_eq_true, not_false_iff, List.mem_append,
      List.mem_singleton] at hf
    rcases hf with hmem | rfl
    · rcases h f hmem with hmem' | hne
      · cases hmem'
      · exact hne
    · simpa [List.isEmpty_iff] using he

theorem insertMany_ok (coll : List (Nat × β)) (bodies : List β) (h : bodies ≠ []) :
    insertMany coll bodies
      = .ok (coll ++ withIds coll.length bodies,
             (withIds coll.length bodies).map Prod.fst) := by
  simp [insertMany, h]

theorem pyDiv_ok (a b : Nat) (h : b ≠ 0) : pyDiv a b = .ok (a / b) := by
  simp [pyDiv, h]

theorem pyMod_ok (a b : Nat) (h : b ≠ 0) : pyMod a b = .ok (a % b) := by
  simp [pyMod, h]

theorem insertFlushes_ok (flushes : List (List β)) :
    ∀ coll : List (Nat × β), (∀ f ∈ flushes, f ≠ []) →
      insertFlushes coll flushes
        = .ok (coll ++ withIds coll.length flushes.flatten) := by
  induction flushes with
  | nil =>
      intro coll _
      simp [insertFlushes, withIds]
  | cons f fs ih =>
      intro coll hne
      have hf : f ≠ [] := hne f (by simp)
      simp only [insertFlushes, insertMany_ok coll f hf]
      rw [ih _ (fun g hg => hne g (List.mem_cons_of_mem _ hg))]
      simp only [List.flatten_cons, withIds_append, List.length_append,
        withIds_length, List.append_assoc]

theorem flatMap_congr {l : List γ} {f g : γ → List δ} (h : ∀ a ∈ l, f a = g a) :
    l.flatMap f = l.flatMap g := by
  induction l with
  | nil => rfl
  | cons x xs ih =>
      simp only [List.flatMap_cons]
      rw [h x (by simp), ih (fun a ha => h a (List.mem_cons_of_mem _ ha))]

theorem model1_load_ok (n m bs : Nat) (prov : Provider) (today : Date)
    (prev : Option (List Doc1)) (h : 1 ≤ m) :
    model1_load n m bs prov today prev = .ok (some (docs1 n m prov today)) := by
  have hm : m ≠ 0 := by omega
  have hcbne : ((List.range m).map (fun i => Doc1Body.company (prov.company i))) ≠ [] := by
    simp [List.range_eq_nil, hm]
  simp only [model1_load, insertMany_ok _ _ hcbne, pyDiv_ok _ _ hm, pyMod_ok _ _ hm,
    List.nil_append, List.length_nil]
  have hpb : (List.range ((withIds 0 ((List.range m).map
          (fun i => Doc1Body.company (prov.company i)))).map Prod.fst).length).flatMap
        (fun i => (List.range (n / m + if i < n % m then 1 else 0)).map (fun j =>
          Doc1Body.person (mkPerson today (prov.person i j))
            (((withIds 0 ((List.range m).map
                (fun i => Doc1Body.company (prov.company i)))).map Prod.fst).getD i 0)))
      = personBodies1 n m prov today := by
    rw [show ((withIds 0 ((List.range m).map
          (fun i => Doc1Body.company (prov.company i)))).map Prod.fst).length = m by
        simp [withIds_length]]
    apply flatMap_congr
    intro i hi
    have hi' : i < m := List.mem_range.mp hi
    have hgd : ((withIds 0 ((List.range m).map
        (fun i => Doc1Body.company (prov.company i)))).map Prod.fst).getD i 0 = i := by
      rw [withIds_fst_getD 0 i _ (by simpa using hi')]
      omega
    rw [hgd]
    rfl
  rw [hpb, insertFlushes_ok _ _ (batchWriter_ne_nil bs _), batchWriter_flatten]
  rw [show (withIds 0 ((List.range m).map (fun i => Doc1Body.company (prov.company i)))).length
        = m by simp [withIds_length]]
  show Except.ok (some _) = _
  rw [docs1, withIds_append]
  simp [companyBodies1]

theorem model2_load_ok (n m bs : Nat) (prov : Provider) (today : Date)
    (prev : Option (List (Nat × PersonEmb))) (h : 1 ≤ m) :
    model2_load n m bs prov today prev = .ok (some (docs2 n m prov today)) := by
  have hm : m ≠ 0 := by omega
  simp only [model2_load, pyDiv_ok _ _ hm, pyMod_ok _ _ hm]
  have hpb : (List.range ((List.range m).map (fun i => prov.company i)).length).flatMap
        (fun i => (List.range (n / m + if i < n % m then 1 else 0)).map (fun j =>
          PersonEmb.mk (mkPerson today (prov.person i j))
            (((List.range m).map (fun i => prov.company i)).getD i default)))
      = (List.range m).flatMap (fun i =>
          (List.range (numEmployees n m i)).map (fun j =>
            PersonEmb.mk (mkPerson today (prov.person i j)) (prov.company i))) := by
    rw [show ((List.range m).map (fun i => prov.company i)).length = m by simp]
    apply flatMap_congr
    intro i hi
    have hi' : i < m := List.mem_range.mp hi
    have hgd : ((List.range m).map (fun i => prov.company i)).getD i default
        = prov.company i := by
      rw [List.getD_eq_getElem _ _ (by simpa using hi')]
      simp
    rw [hgd]
    rfl
  rw [hpb, insertFlushes_ok _ _ (batchWriter_ne_nil bs _), batchWriter_flatten]
  rfl

theorem model3_load_ok (n m bs : Nat) (prov : Provider) (today : Date)
    (prev : Option (List (Nat × CompanyEmb))) (h : 1 ≤ m) :
    model3_load n m bs prov today prev = .ok (some (docs3 n m prov today)) := by
  have hm : m ≠ 0 := by omega
  simp only [model3_load, pyDiv_ok _ _ hm, pyMod_ok _ _ hm]
  rw [insertFlushes_ok _ _ (batchWriter_ne_nil bs _), batchWriter_flatten]
  rfl

/-- C9: in all three variants, calling `data_generator` with `n_companies = 0`
fails for every `n_people`: model1 raises pymongo's `InvalidOperation` on the
empty company bulk insert (before ever reaching the division), while model2
and model3 raise `ZeroDivisionError` at `n_people // n_companies`.  Both
failures are the spec's `InvalidArgument` condition (bad distribution
parameters). -/
theorem C9_nCompanies_zero_fails (n bs : Nat) (prov : Provider) (today : Date)
    (p1 : Option (List Doc1)) (p2 : Option (List (Nat × PersonEmb)))
    (p3 : Option (List (Nat × CompanyEmb))) :
    (∃ st, model1_load n 0 bs prov today p1 = .error (.emptyBulkWrite, st)) ∧
    (∃ st, model2_load n 0 bs prov today p2 = .error (.zeroDivisionError, st)) ∧
    (∃ st, model3_load n 0 bs prov today p3 = .error (.zeroDivisionError, st)) :=
  ⟨⟨some [], rfl⟩, ⟨some [], rfl⟩, ⟨some [], rfl⟩⟩

/-- C10: with `n_companies = 0` the failure happens only after
`drop_collection` and `create_collection` have run: whatever collection the
previous run left behind (`p1`/`p2`/`p3`), the store state at the moment the
exception is raised is `some []` — the old contents are destroyed and an
empty collection is left, with no documents inserted. -/
theorem C10_failure_after_drop_create (n bs : Nat) (prov : Provider) (today : Date)
    (p1 : Option (List Doc1)) (p2 : Option (List (Nat × PersonEmb)))
    (p3 : Option (List (Nat × CompanyEmb))) :
    model1_load n 0 bs prov today p1 = .error (.emptyBulkWrite, some []) ∧
    model2_load n 0 bs prov today p2 = .error (.zeroDivisionError, some []) ∧
    model3_load n 0 bs prov today p3 = .error (.zeroDivisionError, some []) :=
  ⟨rfl, rfl, rfl⟩

/-- Rows one document contributes to model1's Q1: a person is joined (via
`$lookup` on `company_id = _id` and `$unwind`) against every document of the
collection whose `_id` matches; a looked-up document that is itself a person
has no `name` field, which the projection would leave absent (`none`).
Companies are filtered out by the `$match` stage. -/
def q1_m1_row (docs : List Doc1) (b : Doc1Body) : List (String × Option String) :=
  match b with
  | .person p cid =>
      (docs.filter (fun d2 => d2.1 == cid)).map (fun d2 =>
        (p.fullName, match d2.2 with
          | .company c => some c.name
          | .person _ _ => none))
  | .company _ => []

/-- model1 Q1 (lines 110-126). -/
def q1_m1 (docs : List Doc1) : List (String × Option String) :=
  docs.flatMap (fun d => q1_m1_row docs d.2)

/-- The `$lookup` filter of model1's Q2: documents whose `company_id` field
equals the given company `_id` (only person documents carry that field). -/
def isEmployeeOf (cid0 : Nat) (b : Doc1Body) : Bool :=
  match b with
  | .person _ cid => cid == cid0
  | .company _ => false

/-- The row one document contributes to model1's Q2: companies are projected
to (name, `$size` of their looked-up employees); persons are filtered out by
the `$match` stage. -/
def q2_m1_row (docs : List Doc1) (d : Doc1) : Option (String × Nat) :=
  match d.2 with
  | .company c =>
      some (c.name, (docs.filter (fun d2 => isEmployeeOf d.1 d2.2)).length)
  | .person _ _ => none

/-- model1 Q2 (lines 135-152). -/
def q2_m1 (docs : List Doc1) : List (String × Nat) :=
  docs.filterMap (q2_m1_row docs)

/-- model1 Q3 (lines 160-171): `update_many` setting `age := 30` on every
person whose `dateOfBirth` is strictly before the cutoff. -/
def q3_m1 (docs : List Doc1) : List Doc1 :=
  docs.map (fun d =>
    match d.2 with
    | .person p cid =>
        if dateLt p.dateOfBirth cutoff then (d.1, .person { p with age := 30 } cid)
        else d
    | .company _ => d)

/-- model1 Q4 (lines 186-190): concatenate `" Company"` onto every company
document's name. -/
def q4_m1 (docs : List Doc1) : List Doc1 :=
  docs.map (fun d =>
    match d.2 with
    | .company c => (d.1, .company { c with name := c.name ++ " Company" })
    | .person _ _ => d)

/-- model2 Q1 (lines 103-107): every document carries `type: "person"`, so the
find matches all of them; project (fullName, company.name). -/
def q1_m2 (docs : List (Nat × PersonEmb)) : List (String × String) :=
  docs.map (fun d => (d.2.person.fullName, d.2.company.name))

/-- First-occurrence list of the distinct keys, the canonical order chosen
for the embedding of the `$group` stage (the store leaves group order
unspecified). -/
def distinctKeys : List String → List String
  | [] => []
  | k :: ks => k :: (distinctKeys ks).filter (fun x => x != k)

/-- `$group` by key with `$sum: 1`, in first-occurrence key order. -/
def groupCount (keys : List String) : List (String × Nat) :=
  (distinctKeys keys).map (fun k => (k, keys.countP (fun x => x == k)))

/-- model2 Q2 (lines 119-131): group the person documents by the *embedded
company name* and count each group. -/
def q2_m2 (docs : List (Nat × PersonEmb)) : List (String × Nat) :=
  groupCount (docs.map (fun d => d.2.company.name))

/-- model2 Q3 (lines 139-148). -/
def q3_m2 (docs : List (Nat × PersonEmb)) : List (Nat × PersonEmb) :=
  docs.map (fun d =>
    if dateLt d.2.person.dateOfBirth cutoff then
      (d.1, { d.2 with person := { d.2.person with age := 30 } })
    else d)

/-- model2 Q4 (lines 163-167): rewrite the embedded company-name copy inside
every person document. -/
def q4_m2 (docs : List (Nat × PersonEmb)) : List (Nat × PersonEmb) :=
  docs.map (fun d =>
    (d.1, { d.2 with company := { d.2.company with name := d.2.company.name ++ " Company" } }))

/-- model3 Q1 (lines 101-108): `$unwind` each company's employee list and
project (employee fullName, company name). -/
def q1_m3 (docs : List (Nat × CompanyEmb)) : List (String × String) :=
  docs.flatMap (fun d => d.2.employees.map (fun e => (e.fullName, d.2.company.name)))

/-- model3 Q2 (lines 130-133): project every document to
(name, `$size` of its employee list). -/
def q2_m3 (docs : List (Nat × CompanyEmb)) : List (String × Nat) :=
  docs.map (fun d => (d.2.company.name, d.2.employees.length))

/-- The body of model3 Q3's per-company loop (lines 155-161): rebuild the
employee list, setting `age := 30` on employees born before the cutoff, and
track in the second component whether anything matched. -/
def q3UpdateEmps (emps : List Person) : List Person × Bool :=
  emps.foldl (fun acc e =>
    if dateLt e.dateOfBirth cutoff then (acc.1 ++ [{ e with age := 30 }], true)
    else (acc.1 ++ [e], acc.2)) ([], false)

/-- The find filter of model3 Q3 (line 149): some embedded employee was born
before the cutoff. -/
def hasMatch (c : CompanyEmb) : Bool :=
  c.employees.any (fun e => dateLt e.dateOfBirth cutoff)

/-- `update_one` by `_id` (model3 lines 163-166): replace the employee list
of the first document whose `_id` matches. -/
def updateOne (docs : List (Nat × CompanyEmb)) (docId : Nat) (emps : List Person) :
    List (Nat × CompanyEmb) :=
  match docs with
  | [] => []
  | d :: ds =>
      if d.1 == docId then (d.1, { d.2 with employees := emps }) :: ds
      else d :: updateOne ds docId emps

/-- model3 Q3 (lines 146-168): snapshot the companies matched by the find
filter, then fetch-modify-save each one in turn. -/
def q3_m3 (docs : List (Nat × CompanyEmb)) : List (Nat × CompanyEmb) :=
  (docs.filter (fun d => hasMatch d.2)).foldl (fun coll d =>
    let r := q3UpdateEmps d.2.employees
    if r.2 then updateOne coll d.1 r.1 else coll) docs

/-- model3 Q4 (lines 191-194): the empty filter matches every document;
concatenate `" Company"` onto each company name. -/
def q4_m3 (docs : List (Nat × CompanyEmb)) : List (Nat × CompanyEmb) :=
  docs.map (fun d =>
    (d.1, { d.2 with company := { d.2.company with name := d.2.company.name ++ " Company" } }))

theorem map_congr_mem {l : List γ} {f g : γ → δ} (h : ∀ a ∈ l, f a = g a) :
    l.map f = l.map g := by
  induction l with
  | nil => rfl
  | cons x xs ih =>
      simp only [List.map_cons]
      rw [h x (by simp), ih (fun a ha => h a (List.mem_cons_of_mem _ ha))]

theorem filterMap_congr_mem {l : List γ} {f g : γ → Option δ}
    (h : ∀ a ∈ l, f a = g a) : l.filterMap f = l.filterMap g := by
  induction l with
  | nil => rfl
  | cons x xs ih =>
      simp only [List.filterMap_cons]
      rw [h x (by simp), ih (fun a ha => h a (List.mem_cons_of_mem _ ha))]

theorem filterMap_all_some (l : List γ) (f : γ → δ) :
    l.filterMap (fun a => some (f a)) = l.map f := by
  induction l with
  | nil => rfl
  | cons x xs ih => simp [List.filterMap_cons, ih]

theorem filterMap_all_none {l : List γ} {f : γ → Option δ}
    (h : ∀ a ∈ l, f a = none) : l.filterMap f = [] := by
  induction l with
  | nil => rfl
  | cons x xs ih =>
      simp only [List.filterMap_cons, h x (by simp)]
      exact ih (fun a ha => h a (List.mem_cons_of_mem _ ha))

theorem length_flatMap_eq_sum {l : List γ} {f : γ → List δ} {g : γ → Nat}
    (h : ∀ a ∈ l, (f a).length = g a) :
    (l.flatMap f).length = (l.map g).sum := by
  induction l with
  | nil => rfl
  | cons x xs ih =>
      simp only [List.flatMap_cons, List.length_append, List.map_cons, List.sum_cons]
      rw [h x (by simp), ih (fun a ha => h a (List.mem_cons_of_mem _ ha))]

theorem sum_map_one (l : List γ) : (l.map (fun _ => (1 : Nat))).sum = l.length := by
  induction l with
  | nil => rfl
  | cons x xs ih =>
      simp only [List.map_cons, List.sum_cons, ih, List.length_cons]
      omega

theorem sum_map_zero (l : List γ) : (l.map (fun _ => (0 : Nat))).sum = 0 := by
  induction l with
  | nil => rfl
  | cons x xs ih => simp [ih]

theorem countP_eq_zero_of {l : List γ} {p : γ → Bool}
    (h : ∀ a ∈ l, p a = false) : l.countP p = 0 := by
  induction l with
  | nil => rfl
  | cons x xs ih =>
      rw [List.countP_cons, h x (by simp), ih (fun a ha => h a (List.mem_cons_of_mem _ ha))]
      simp

theorem countP_flatMap (l : List γ) (f : γ → List δ) (p : δ → Bool) :
    (l.flatMap f).countP p = (l.map (fun a => (f a).countP p)).sum := by
  induction l with
  | nil => rfl
  | cons x xs ih => simp [List.flatMap_cons, List.countP_append, ih]

theorem countP_map_comp (l : List γ) (f : γ → δ) (p : δ → Bool) :
    (l.map f).countP p = l.countP (fun a => p (f a)) := by
  induction l with
  | nil => rfl
  | cons x xs ih => simp [List.countP_cons, ih]

theorem countP_const (l : List γ) (b : Bool) :
    l.countP (fun _ => b) = if b then l.length else 0 := by
  induction l with
  | nil => simp
  | cons x xs ih =>
      rw [List.countP_cons, ih]
      cases b <;> simp

theorem sum_range_delta (i : Nat) (f : Nat → Nat) :
    ∀ m, i < m → ((List.range m).map (fun j => if j = i then f j else 0)).sum = f i := by
  intro m
  induction m with
  | zero => omega
  | succ k ih =>
      intro hi
      rw [List.range_succ, List.map_append, List.sum_append]
      rcases Nat.lt_or_ge i k with h | h
      · rw [ih h]
        simp only [List.map_cons, List.map_nil, List.sum_cons, List.sum_nil]
        rw [if_neg (by omega)]
        omega
      · have hik : i = k := by omega
        subst hik
        have hz : ((List.range i).map (fun j => if j = i then f j else 0))
            = (List.range i).map (fun _ => 0) :=
          map_congr_mem (by
            intro a ha
            rw [if_neg (Nat.ne_of_lt (List.mem_range.mp ha))])
        rw [hz, sum_map_zero]
        simp

theorem map_withIds_snd (k : Nat) (l : List β) (f : β → γ) :
    (withIds k l).map (fun d => f d.2) = l.map f := by
  induction l generalizing k with
  | nil => rfl
  | cons b bs ih => simp [withIds, ih]

theorem countP_withIds_snd (k : Nat) (l : List β) (p : β → Bool) :
    (withIds k l).countP (fun d => p d.2) = l.countP p := by
  induction l generalizing k with
  | nil => rfl
  | cons b bs ih => simp [withIds, List.countP_cons, ih]

theorem flatMap_withIds (k : Nat) (l : List β) (F2 : β → List γ) :
    (withIds k l).flatMap (fun d => F2 d.2) = l.flatMap F2 := by
  induction l generalizing k with
  | nil => rfl
  | cons b bs ih => simp [withIds, List.flatMap_cons, ih]

theorem withIds_map_range (k m : Nat) (f : Nat → β) :
    withIds k ((List.range m).map f) = (List.range m).map (fun i => (k + i, f i)) := by
  induction m with
  | zero => rfl
  | succ j ih =>
      rw [List.range_succ, List.map_append, List.map_append, withIds_append, ih]
      simp [withIds]

theorem withIds_zero_map_range (m : Nat) (f : Nat → β) :
    withIds 0 ((List.range m).map f) = (List.range m).map (fun i => (i, f i)) := by
  rw [withIds_map_range]
  exact map_congr_mem (by intro a _; simp)

theorem companyBodies1_length (m : Nat) (prov : Provider) :
    (companyBodies1 m prov).length = m := by
  simp [companyBodies1]

theorem personBodies1_length (n m : Nat) (prov : Provider) (today : Date) (h : 1 ≤ m) :
    (personBodies1 n m prov today).length = n := by
  rw [personBodies1,
    length_flatMap_eq_sum (g := numEmployees n m) (fun a _ => by simp)]
  exact distribution_sum n m h

theorem docs1_split (n m : Nat) (prov : Provider) (today : Date) :
    docs1 n m prov today
      = withIds 0 (companyBodies1 m prov) ++ withIds m (personBodies1 n m prov today) := by
  rw [docs1, withIds_append]
  rw [show 0 + (companyBodies1 m prov).length = m by simp [companyBodies1_length]]

theorem personBodies1_shape (n m : Nat) (prov : Provider) (today : Date)
    (b : Doc1Body) (hb : b ∈ personBodies1 n m prov today) :
    ∃ i j, i < m ∧ b = Doc1Body.person (mkPerson today (prov.person i j)) i := by
  simp only [personBodies1, List.mem_flatMap, List.mem_map, List.mem_range] at hb
  obtain ⟨i, hi, j, _, rfl⟩ := hb
  exact ⟨i, j, hi, rfl⟩

theorem companyBodies1_shape (m : Nat) (prov : Provider)
    (b : Doc1Body) (hb : b ∈ companyBodies1 m prov) :
    ∃ i, i < m ∧ b = Doc1Body.company (prov.company i) := by
  simp only [companyBodies1, List.mem_map, List.mem_range] at hb
  obtain ⟨i, hi, rfl⟩ := hb
  exact ⟨i, hi, rfl⟩

theorem docs2_length (n m : Nat) (prov : Provider) (today : Date) (h : 1 ≤ m) :
    (docs2 n m prov today).length = n := by
  rw [docs2, withIds_length,
    length_flatMap_eq_sum (g := numEmployees n m) (fun a _ => by simp)]
  exact distribution_sum n m h

theorem docs2_shape (n m : Nat) (prov : Provider) (today : Date)
    (d : Nat × PersonEmb) (hd : d ∈ docs2 n m prov today) :
    ∃ i j, i < m ∧ d.2 = PersonEmb.mk (mkPerson today (prov.person i j)) (prov.company i) := by
  rw [docs2] at hd
  have hmem := mem_withIds _ _ hd
  simp only [List.mem_flatMap, List.mem_map, List.mem_range] at hmem
  obtain ⟨i, hi, j, _, hb⟩ := hmem
  exact ⟨i, j, hi, hb.symm⟩

theorem docs3_shape (n m : Nat) (prov : Provider) (today : Date)
    (d : Nat × CompanyEmb) (hd : d ∈ docs3 n m prov today) :
    ∃ i, i < m ∧ d.2 = CompanyEmb.mk (prov.company i)
      ((List.range (numEmployees n m i)).map (fun j => mkPerson today (prov.person i j))) := by
  rw [docs3] at hd
  have hmem := mem_withIds _ _ hd
  simp only [List.mem_map, List.mem_range] at hmem
  obtain ⟨i, hi, hb⟩ := hmem
  exact ⟨i, hi, hb.symm⟩

/-- Number of Q1 row blocks a model1 document body contributes: one for a
person, none for a company. -/
def personCount1 (b : Doc1Body) : Nat :=
  match b with
  | .person _ _ => 1
  | .company _ => 0

theorem q1_m1_length (n m : Nat) (prov : Provider) (today : Date) (h : 1 ≤ m) :
    (q1_m1 (docs1 n m prov today)).length = n := by
  have hpoint : ∀ d ∈ docs1 n m prov today,
      (q1_m1_row (docs1 n m prov today) d.2).length = personCount1 d.2 := by
    intro d hd
    have hmem : d.2 ∈ companyBodies1 m prov ++ personBodies1 n m prov today := by
      rw [docs1] at hd
      exact mem_withIds _ _ hd
    rcases List.mem_append.mp hmem with hc | hp
    · obtain ⟨i, _, hb⟩ := companyBodies1_shape m prov _ hc
      rw [hb]
      rfl
    · obtain ⟨i, j, him, hb⟩ := personBodies1_shape n m prov today _ hp
      rw [hb]
      simp only [q1_m1_row, personCount1, List.length_map]
      rw [← List.countP_eq_length_filter, docs1,
        countP_fst_withIds i 0 (companyBodies1 m prov ++ personBodies1 n m prov today)]
      rw [if_pos]
      refine ⟨by omega, ?_⟩
      have := companyBodies1_length m prov
      simp only [List.length_append]
      omega
  simp only [q1_m1]
  rw [length_flatMap_eq_sum hpoint]
  simp only [docs1]
  rw [map_withIds_snd 0 (companyBodies1 m prov ++ personBodies1 n m prov today) personCount1,
    List.map_append, List.sum_append]
  have hA : ((companyBodies1 m prov).map personCount1)
      = (companyBodies1 m prov).map (fun _ => 0) :=
    map_congr_mem (by
      intro b hb
      obtain ⟨i, _, rfl⟩ := companyBodies1_shape m prov b hb
      rfl)
  have hB : ((personBodies1 n m prov today).map personCount1)
      = (personBodies1 n m prov today).map (fun _ => 1) :=
    map_congr_mem (by
      intro b hb
      obtain ⟨i, j, _, rfl⟩ := personBodies1_shape n m prov today b hb
      rfl)
  rw [hA, hB, sum_map_zero, sum_map_one, personBodies1_length n m prov today h]
  omega

theorem q1_m2_length (n m : Nat) (prov : Provider) (today : Date) (h : 1 ≤ m) :
    (q1_m2 (docs2 n m prov today)).length = n := by
  simp only [q1_m2, List.length_map]
  exact docs2_length n m prov today h

theorem q1_m3_length (n m : Nat) (prov : Provider) (today : Date) (h : 1 ≤ m) :
    (q1_m3 (docs3 n m prov today)).length = n := by
  simp only [q1_m3, docs3]
  rw [flatMap_withIds 0
    ((List.range m).map (fun i => CompanyEmb.mk (prov.company i)
      ((List.range (numEmployees n m i)).map (fun j => mkPerson today (prov.person i j)))))
    (fun b => b.employees.map (fun e => (e.fullName, b.company.name)))]
  rw [length_flatMap_eq_sum (g := fun b => b.employees.length) (fun a _ => by simp)]
  rw [List.map_map]
  rw [map_congr_mem (g := numEmployees n m) (by intro a _; simp)]
  exact distribution_sum n m h

/-- C6: after a successful load of the same parameters, Q1 returns exactly
one row per stored person in each of the three variants: the row count equals
`n_people` everywhere. -/
theorem C6_q1_row_counts (n m bs1 bs2 bs3 : Nat) (prov : Provider) (today : Date)
    (p1 : Option (List Doc1)) (p2 : Option (List (Nat × PersonEmb)))
    (p3 : Option (List (Nat × CompanyEmb))) (h : 1 ≤ m) :
    model1_load n m bs1 prov today p1 = .ok (some (docs1 n m prov today)) ∧
    model2_load n m bs2 prov today p2 = .ok (some (docs2 n m prov today)) ∧
    model3_load n m bs3 prov today p3 = .ok (some (docs3 n m prov today)) ∧
    (q1_m1 (docs1 n m prov today)).length = n ∧
    (q1_m2 (docs2 n m prov today)).length = n ∧
    (q1_m3 (docs3 n m prov today)).length = n :=
  ⟨model1_load_ok n m bs1 prov today p1 h, model2_load_ok n m bs2 prov today p2 h,
   model3_load_ok n m bs3 prov today p3 h, q1_m1_length n m prov today h,
   q1_m2_length n m prov today h, q1_m3_length n m prov today h⟩

/-- A concrete provider used for the closed instances. -/
def cProvider : Provider where
  company := fun i =>
    { domain := "ex.com", email := "info@ex.com",
      name := if i == 0 then "A" else "B",
      url := "http://ex.com", vatNumber := "AB00000000" }
  person := fun i j =>
    { dob := ⟨1980 + i + j, 5, 1⟩, companyEmail := "p@ex.com", email := "p@mail.com",
      firstName := "Ada", fullName := "Ada Lovelace", sex := "F" }

/-- A concrete generation date. -/
def ctoday : Date := ⟨2025, 6, 15⟩

/-- Closed instance of C6 at `n_people = 3`, `n_companies = 2`. -/
theorem C6_q1_row_counts_witness :
    1 ≤ 2 ∧
    (model1_load 3 2 2 cProvider ctoday none = .ok (some (docs1 3 2 cProvider ctoday)) ∧
     model2_load 3 2 2 cProvider ctoday none = .ok (some (docs2 3 2 cProvider ctoday)) ∧
     model3_load 3 2 2 cProvider ctoday none = .ok (some (docs3 3 2 cProvider ctoday)) ∧
     (q1_m1 (docs1 3 2 cProvider ctoday)).length = 3 ∧
     (q1_m2 (docs2 3 2 cProvider ctoday)).length = 3 ∧
     (q1_m3 (docs3 3 2 cProvider ctoday)).length = 3) :=
  ⟨by decide, C6_q1_row_counts 3 2 2 2 2 cProvider ctoday none none none (by decide)⟩

/-- C7: every person stored by any of the three generators has
`age = today.year - dob.year`, minus 1 exactly when today's (month, day) pair
strictly precedes the birthday's (month, day) pair. -/
theorem C7_age_derivation (n m : Nat) (prov : Provider) (today : Date) :
    (∀ d ∈ docs1 n m prov today, ∀ p cid, d.2 = Doc1Body.person p cid →
       p.age = (today.year : Int) - (p.dateOfBirth.year : Int) -
         (if pairLt (today.month, today.day) (p.dateOfBirth.month, p.dateOfBirth.day)
          then 1 else 0)) ∧
    (∀ d ∈ docs2 n m prov today,
       d.2.person.age = (today.year : Int) - (d.2.person.dateOfBirth.year : Int) -
         (if pairLt (today.month, today.day)
            (d.2.person.dateOfBirth.month, d.2.person.dateOfBirth.day) then 1 else 0)) ∧
    (∀ d ∈ docs3 n m prov today, ∀ e ∈ d.2.employees,
       e.age = (today.year : Int) - (e.dateOfBirth.year : Int) -
         (if pairLt (today.month, today.day) (e.dateOfBirth.month, e.dateOfBirth.day)
          then 1 else 0)) := by
  refine ⟨?_, ?_, ?_⟩
  · intro d hd p cid hp
    have hmem : d.2 ∈ companyBodies1 m prov ++ personBodies1 n m prov today := by
      rw [docs1] at hd
      exact mem_withIds _ _ hd
    rcases List.mem_append.mp hmem with hc | hpb
    · obtain ⟨i, _, hb⟩ := companyBodies1_shape m prov _ hc
      rw [hb] at hp
      cases hp
    · obtain ⟨i, j, _, hb⟩ := personBodies1_shape n m prov today _ hpb
      rw [hb] at hp
      cases hp
      rfl
  · intro d hd
    obtain ⟨i, j, _, hb⟩ := docs2_shape n m prov today d hd
    rw [hb]
    rfl
  · intro d hd e he
    obtain ⟨i, _, hb⟩ := docs3_shape n m prov today d hd
    rw [hb] at he
    simp only [List.mem_map, List.mem_range] at he
    obtain ⟨j, _, rfl⟩ := he
    rfl

/-- Closed instance of C7 at `n_people = 2`, `n_companies = 1`. -/
theorem C7_age_derivation_witness :
    (∀ d ∈ docs1 2 1 cProvider ctoday, ∀ p cid, d.2 = Doc1Body.person p cid →
       p.age = (ctoday.year : Int) - (p.dateOfBirth.year : Int) -
         (if pairLt (ctoday.month, ctoday.day) (p.dateOfBirth.month, p.dateOfBirth.day)
          then 1 else 0)) ∧
    (∀ d ∈ docs2 2 1 cProvider ctoday,
       d.2.person.age = (ctoday.year : Int) - (d.2.person.dateOfBirth.year : Int) -
         (if pairLt (ctoday.month, ctoday.day)
            (d.2.person.dateOfBirth.month, d.2.person.dateOfBirth.day) then 1 else 0)) ∧
    (∀ d ∈ docs3 2 1 cProvider ctoday, ∀ e ∈ d.2.employees,
       e.age = (ctoday.year : Int) - (e.dateOfBirth.year : Int) -
         (if pairLt (ctoday.month, ctoday.day) (e.dateOfBirth.month, e.dateOfBirth.day)
          then 1 else 0)) :=
  C7_age_derivation 2 1 cProvider ctoday

theorem mem_of_mem_distinctKeys :
    ∀ (l : List String) (k : String), k ∈ distinctKeys l → k ∈ l := by
  intro l
  induction l with
  | nil =>
      intro k hk
      simp [distinctKeys] at hk
  | cons x xs ih =>
      intro k hk
      simp only [distinctKeys, List.mem_cons] at hk
      rcases hk with rfl | h
      · simp
      · exact List.mem_cons_of_mem _ (ih k (List.mem_of_mem_filter h))

theorem filter_bne_replicate (c : Nat) (k : String) :
    (List.replicate c k).filter (fun x => x != k) = [] := by
  induction c with
  | zero => rfl
  | succ c' ih => simp [List.replicate_succ, List.filter_cons, ih]

theorem filter_bne_of_ne {l : List String} {k : String} (h : ∀ x ∈ l, x ≠ k) :
    l.filter (fun x => x != k) = l := by
  induction l with
  | nil => rfl
  | cons x xs ih =>
      rw [List.filter_cons, if_pos (by simpa using h x (by simp))]
      rw [ih (fun a ha => h a (List.mem_cons_of_mem _ ha))]

theorem countP_replicate (c : Nat) (k : String) (p : String → Bool) :
    (List.replicate c k).countP p = if p k then c else 0 := by
  induction c with
  | zero => simp
  | succ c' ih =>
      rw [List.replicate_succ, List.countP_cons, ih]
      by_cases hp : p k <;> simp [hp]

theorem map_const_eq_replicate (l : List γ) (b : δ) :
    l.map (fun _ => b) = List.replicate l.length b := by
  induction l with
  | nil => rfl
  | cons x xs ih => simp [List.replicate_succ, ih]

theorem flatMap_map_comp (l : List γ) (f : γ → δ) (g : δ → List ε) :
    (l.map f).flatMap g = l.flatMap (fun a => g (f a)) := by
  induction l with
  | nil => rfl
  | cons x xs ih => simp [List.flatMap_cons, ih]

theorem map_flatMap_eq (l : List γ) (f : γ → List δ) (g : δ → ε) :
    (l.flatMap f).map g = l.flatMap (fun a => (f a).map g) := by
  induction l with
  | nil => rfl
  | cons x xs ih => simp [List.flatMap_cons, ih]

theorem distinctKeys_block (k : String) (keysRest : List String)
    (hrest : ∀ x ∈ keysRest, x ≠ k) :
    ∀ c, 1 ≤ c → distinctKeys (List.replicate c k ++ keysRest)
      = k :: distinctKeys keysRest := by
  intro c
  induction c with
  | zero => omega
  | succ c' ih =>
      intro _
      rw [List.replicate_succ, List.cons_append]
      simp only [distinctKeys]
      rcases Nat.eq_zero_or_pos c' with rfl | hc'
      · simp only [List.replicate, List.nil_append]
        rw [filter_bne_of_ne (fun x hx => hrest x (mem_of_mem_distinctKeys _ _ hx))]
      · rw [ih hc', List.filter_cons, if_neg (by simp)]
        rw [filter_bne_of_ne (fun x hx => hrest x (mem_of_mem_distinctKeys _ _ hx))]

/-- The `$group` embedding applied to keys arranged in contiguous blocks with
pairwise-distinct non-empty key groups recovers exactly the (key, count)
table, in block order. -/
theorem groupCount_flat :
    ∀ ks : List (String × Nat), (∀ kc ∈ ks, 1 ≤ kc.2) →
      ((ks.map Prod.fst).Nodup) →
      groupCount (ks.flatMap (fun kc => List.replicate kc.2 kc.1)) = ks := by
  intro ks
  induction ks with
  | nil => intro _ _; rfl
  | cons kc rest ih =>
      intro hpos hnd
      obtain ⟨k, c⟩ := kc
      have hc : 1 ≤ c := hpos (k, c) (by simp)
      have hnd' := hnd
      simp only [List.map_cons, List.nodup_cons] at hnd'
      obtain ⟨hknotin, hndrest⟩ := hnd'
      have hrest : ∀ x ∈ rest.flatMap (fun kc => List.replicate kc.2 kc.1), x ≠ k := by
        intro x hx
        simp only [List.mem_flatMap] at hx
        obtain ⟨kc', hkc', hxr⟩ := hx
        have hx1 : x = kc'.1 := List.eq_of_mem_replicate hxr
        subst hx1
        intro hkk
        exact hknotin (hkk ▸ List.mem_map_of_mem Prod.fst hkc')
      rw [List.flatMap_cons]
      have hdk := distinctKeys_block k _ hrest c hc
      rw [groupCount, hdk, List.map_cons]
      have hhead : (List.replicate c k ++ rest.flatMap
            (fun kc => List.replicate kc.2 kc.1)).countP (fun x => x == k) = c := by
        rw [List.countP_append, countP_replicate,
          countP_eq_zero_of (by
            intro x hx
            simpa using hrest x hx)]
        simp
      rw [hhead]
      have htail : (distinctKeys (rest.flatMap (fun kc => List.replicate kc.2 kc.1))).map
            (fun k' => (k', (List.replicate c k ++ rest.flatMap
              (fun kc => List.replicate kc.2 kc.1)).countP (fun x => x == k')))
          = (distinctKeys (rest.flatMap (fun kc => List.replicate kc.2 kc.1))).map
            (fun k' => (k', (rest.flatMap
              (fun kc => List.replicate kc.2 kc.1)).countP (fun x => x == k'))) := by
        apply map_congr_mem
        intro k' hk'
        have hk'mem := mem_of_mem_distinctKeys _ _ hk'
        have hkne : k ≠ k' := fun hkk => (hrest k' hk'mem) hkk.symm
        rw [List.countP_append, countP_replicate, if_neg (by simpa using hkne)]
        simp
      rw [htail]
      exact congrArg _ (ih (fun kc' h' => hpos kc' (List.mem_cons_of_mem _ h')) hndrest)

/-- The per-company (name, employee count) table the distributor induces, in
company generation order. -/
def q2Expected (n m : Nat) (prov : Provider) : List (String × Nat) :=
  (List.range m).map (fun i => ((prov.company i).name, numEmployees n m i))

theorem q2_m3_eq (n m : Nat) (prov : Provider) (today : Date) :
    q2_m3 (docs3 n m prov today) = q2Expected n m prov := by
  simp only [q2_m3, docs3]
  rw [map_withIds_snd 0
    ((List.range m).map (fun i => CompanyEmb.mk (prov.company i)
      ((List.range (numEmployees n m i)).map (fun j => mkPerson today (prov.person i j)))))
    (fun b => (b.company.name, b.employees.length))]
  rw [List.map_map]
  exact map_congr_mem (by intro a _; simp)

theorem q2_m1_eq (n m : Nat) (prov : Provider) (today : Date) (_h : 1 ≤ m) :
    q2_m1 (docs1 n m prov today) = q2Expected n m prov := by
  have hcount : ∀ i, i < m →
      (((withIds 0 (companyBodies1 m prov)
          ++ withIds m (personBodies1 n m prov today)).filter
        (fun d2 => isEmployeeOf i d2.2)).length = numEmployees n m i) := by
    intro i hi
    rw [← List.countP_eq_length_filter, List.countP_append,
      countP_withIds_snd 0 (companyBodies1 m prov) (isEmployeeOf i),
      countP_withIds_snd m (personBodies1 n m prov today) (isEmployeeOf i)]
    have hcb : (companyBodies1 m prov).countP (isEmployeeOf i) = 0 :=
      countP_eq_zero_of (by
        intro b hb
        obtain ⟨i', _, rfl⟩ := companyBodies1_shape m prov b hb
        rfl)
    have hpb : (personBodies1 n m prov today).countP (isEmployeeOf i)
        = numEmployees n m i := by
      rw [personBodies1, countP_flatMap]
      have hpt : ∀ j ∈ List.range m,
          (((List.range (numEmployees n m j)).map (fun jj =>
            Doc1Body.person (mkPerson today (prov.person j jj)) j)).countP (isEmployeeOf i))
          = if j = i then numEmployees n m j else 0 := by
        intro j _
        rw [countP_map_comp]
        rw [show (fun a => isEmployeeOf i (Doc1Body.person (mkPerson today (prov.person j a)) j))
            = fun _ => (j == i) from rfl]
        rw [countP_const]
        by_cases hj : j = i
        · subst hj
          simp
        · rw [if_neg (by simpa using hj), if_neg hj]
      rw [map_congr_mem hpt]
      exact sum_range_delta i (numEmployees n m) m hi
    rw [hcb, hpb]
    omega
  simp only [q2_m1]
  rw [docs1_split n m prov today, List.filterMap_append]
  have h2 : (withIds m (personBodies1 n m prov today)).filterMap
      (q2_m1_row (withIds 0 (companyBodies1 m prov)
        ++ withIds m (personBodies1 n m prov today))) = [] :=
    filterMap_all_none (by
      intro d hd
      obtain ⟨i, j, _, hb⟩ := personBodies1_shape n m prov today _ (mem_withIds _ _ hd)
      simp [q2_m1_row, hb])
  rw [h2, List.append_nil]
  have hwc : withIds 0 (companyBodies1 m prov)
      = (List.range m).map (fun i => (i, Doc1Body.company (prov.company i))) :=
    withIds_zero_map_range m _
  rw [hwc] at hcount ⊢
  rw [List.filterMap_map]
  have hpt : ∀ i ∈ List.range m,
      (q2_m1_row ((List.range m).map (fun i => (i, Doc1Body.company (prov.company i)))
          ++ withIds m (personBodies1 n m prov today))
        ∘ (fun i => (i, Doc1Body.company (prov.company i)))) i
        = some ((prov.company i).name, numEmployees n m i) := by
    intro i hi
    have hi' := List.mem_range.mp hi
    show q2_m1_row _ (i, Doc1Body.company (prov.company i)) = _
    simp only [q2_m1_row]
    rw [hcount i hi']
  rw [filterMap_congr_mem hpt,
    filterMap_all_some (List.range m)
      (fun i => ((prov.company i).name, numEmployees n m i))]
  rfl

theorem q2_m2_eq (n m : Nat) (prov : Provider) (today : Date)
    (h : 1 ≤ m) (hmn : m ≤ n)
    (hnames : (List.range m).Pairwise
      (fun i j => (prov.company i).name ≠ (prov.company j).name)) :
    q2_m2 (docs2 n m prov today) = q2Expected n m prov := by
  have hkeys : (docs2 n m prov today).map (fun d => d.2.company.name)
      = ((List.range m).map (fun i => ((prov.company i).name, numEmployees n m i))).flatMap
          (fun kc => List.replicate kc.2 kc.1) := by
    rw [docs2, map_withIds_snd 0
      ((List.range m).flatMap (fun i =>
        (List.range (numEmployees n m i)).map (fun j =>
          PersonEmb.mk (mkPerson today (prov.person i j)) (prov.company i))))
      (fun b => b.company.name)]
    rw [map_flatMap_eq, flatMap_map_comp]
    apply flatMap_congr
    intro i _
    rw [List.map_map]
    rw [show ((fun b => b.company.name)
        ∘ (fun j => PersonEmb.mk (mkPerson today (prov.person i j)) (prov.company i)))
        = fun _ => (prov.company i).name from rfl]
    rw [map_const_eq_replicate]
    simp
  rw [q2_m2, hkeys, groupCount_flat]
  · rfl
  · intro kc hkc
    simp only [List.mem_map, List.mem_range] at hkc
    obtain ⟨i, hi, rfl⟩ := hkc
    have hdiv : 1 ≤ n / m := (Nat.one_le_div_iff (by omega)).mpr hmn
    by_cases hc : i < n % m
    · simp only [numEmployees, if_pos hc]
      omega
    · simp only [numEmployees, if_neg hc]
      omega
  · rw [show ((List.range m).map
        (fun i => ((prov.company i).name, numEmployees n m i))).map Prod.fst
        = (List.range m).map (fun i => (prov.company i).name) by
      rw [List.map_map]; rfl]
    exact (List.pairwise_map).mpr hnames

theorem q2Expected_sum (n m : Nat) (prov : Provider) (h : 1 ≤ m) :
    ((q2Expected n m prov).map Prod.snd).sum = n := by
  rw [q2Expected, List.map_map]
  rw [show (Prod.snd ∘ fun i => ((prov.company i).name, numEmployees n m i))
      = numEmployees n m from rfl]
  exact distribution_sum n m h

/-- C2 as stated is false: with `n_people = 1`, `n_companies = 2` the
EmbeddedSingle variant's Q2 groups the person documents by embedded company
name, so the second generated company (which received zero employees)
produces no row at all: Q2 returns one row while the Referenced variant
returns a row for each of the two companies. -/
theorem C2_counterexample :
    model2_load 1 2 2000 cProvider ctoday none = .ok (some (docs2 1 2 cProvider ctoday)) ∧
    model1_load 1 2 2000 cProvider ctoday none = .ok (some (docs1 1 2 cProvider ctoday)) ∧
    q2_m1 (docs1 1 2 cProvider ctoday) = [("A", 1), ("B", 0)] ∧
    q2_m2 (docs2 1 2 cProvider ctoday) = [("A", 1)] ∧
    (q2_m2 (docs2 1 2 cProvider ctoday)).length ≠ 2 :=
  ⟨rfl, rfl, rfl, rfl, by decide⟩

/-- C2 amended: after a successful load, Q2 agrees with the distributor's
per-company counts — unconditionally for the Referenced and EmbeddedArray
variants, and for the EmbeddedSingle variant (which can only group by the
embedded company name) provided every company has at least one employee
(`n_companies ≤ n_people`) and the generated company names are pairwise
distinct; under those conditions all three variants return the same
per-company table, whose counts sum to the total person count. -/
theorem C2_q2_per_company (n m : Nat) (prov : Provider) (today : Date) (h : 1 ≤ m) :
    q2_m1 (docs1 n m prov today) = q2Expected n m prov ∧
    q2_m3 (docs3 n m prov today) = q2Expected n m prov ∧
    ((q2Expected n m prov).map Prod.snd).sum = n ∧
    (m ≤ n →
      (List.range m).Pairwise
        (fun i j => (prov.company i).name ≠ (prov.company j).name) →
      q2_m2 (docs2 n m prov today) = q2Expected n m prov) :=
  ⟨q2_m1_eq n m prov today h, q2_m3_eq n m prov today, q2Expected_sum n m prov h,
   fun hmn hnames => q2_m2_eq n m prov today h hmn hnames⟩

/-- Closed instance of the amended C2 at `n_people = 3`, `n_companies = 2`,
with the EmbeddedSingle side conditions discharged concretely. -/
theorem C2_q2_per_company_witness :
    1 ≤ 2 ∧
    (q2_m1 (docs1 3 2 cProvider ctoday) = q2Expected 3 2 cProvider ∧
     q2_m3 (docs3 3 2 cProvider ctoday) = q2Expected 3 2 cProvider ∧
     ((q2Expected 3 2 cProvider).map Prod.snd).sum = 3 ∧
     (2 ≤ 3 →
       (List.range 2).Pairwise
         (fun i j => (cProvider.company i).name ≠ (cProvider.company j).name) →
       q2_m2 (docs2 3 2 cProvider ctoday) = q2Expected 3 2 cProvider)) :=
  ⟨by decide, C2_q2_per_company 3 2 cProvider ctoday (by decide)⟩

/-- The net per-employee effect of Q3: set `age := 30` on employees born
before the cutoff. -/
def q3EmpMap (emps : List Person) : List Person :=
  emps.map (fun e => if dateLt e.dateOfBirth cutoff then { e with age := 30 } else e)

/-- The net per-document effect of model3's Q3 on one company document. -/
def q3Doc3 (d : Nat × CompanyEmb) : Nat × CompanyEmb :=
  if hasMatch d.2 then (d.1, { d.2 with employees := q3EmpMap d.2.employees }) else d

theorem q3UpdateEmps_aux (emps : List Person) :
    ∀ (acc : List Person) (b : Bool),
      emps.foldl (fun acc e =>
        if dateLt e.dateOfBirth cutoff then (acc.1 ++ [{ e with age := 30 }], true)
        else (acc.1 ++ [e], acc.2)) (acc, b)
      = (acc ++ q3EmpMap emps, b || emps.any (fun e => dateLt e.dateOfBirth cutoff)) := by
  induction emps with
  | nil =>
      intro acc b
      simp [q3EmpMap]
  | cons e es ih =>
      intro acc b
      simp only [List.foldl_cons]
      by_cases hc : dateLt e.dateOfBirth cutoff
      · rw [if_pos hc]
        rw [ih]
        simp [q3EmpMap, hc]
      · rw [if_neg hc]
        rw [ih]
        simp [q3EmpMap, hc]

theorem q3UpdateEmps_eq (emps : List Person) :
    q3UpdateEmps emps
      = (q3EmpMap emps, emps.any (fun e => dateLt e.dateOfBirth cutoff)) := by
  rw [q3UpdateEmps, q3UpdateEmps_aux]
  simp

theorem updateOne_append (l0 : List (Nat × CompanyEmb)) (d : Nat × CompanyEmb)
    (rest : List (Nat × CompanyEmb)) (emps : List Person)
    (hno : ∀ a ∈ l0, a.1 ≠ d.1) :
    updateOne (l0 ++ d :: rest) d.1 emps
      = l0 ++ (d.1, CompanyEmb.mk d.2.company emps) :: rest := by
  induction l0 with
  | nil => simp [updateOne]
  | cons a l0' ih =>
      simp only [List.cons_append, updateOne, List.append_eq]
      rw [if_neg (by simpa using hno a (by simp))]
      rw [ih (fun x hx => hno x (List.mem_cons_of_mem _ hx))]

theorem q3_m3_fold (rest : List (Nat × CompanyEmb)) :
    ∀ l0 : List (Nat × CompanyEmb),
      (∀ a ∈ l0, ∀ b ∈ rest, a.1 ≠ b.1) →
      ((rest.map Prod.fst).Nodup) →
      ((rest.filter (fun d => hasMatch d.2)).foldl (fun coll d =>
        let r := q3UpdateEmps d.2.employees
        if r.2 then updateOne coll d.1 r.1 else coll) (l0 ++ rest))
      = l0 ++ rest.map q3Doc3 := by
  induction rest with
  | nil =>
      intro l0 _ _
      simp
  | cons d rest' ih =>
      intro l0 hdisj hnd
      simp only [List.map_cons, List.nodup_cons] at hnd
      obtain ⟨hdnotin, hnd'⟩ := hnd
      by_cases hm : hasMatch d.2
      · rw [List.filter_cons, if_pos (by simpa using hm)]
        simp only [List.foldl_cons]
        have hstep : (let r := q3UpdateEmps d.2.employees
            if r.2 then updateOne (l0 ++ d :: rest') d.1 r.1 else l0 ++ d :: rest')
            = updateOne (l0 ++ d :: rest') d.1 (q3EmpMap d.2.employees) := by
          rw [q3UpdateEmps_eq]
          exact if_pos (by simpa [hasMatch] using hm)
        rw [hstep]
        rw [updateOne_append l0 d rest' _ (fun a ha => hdisj a ha d (by simp))]
        rw [show l0 ++ (d.1, CompanyEmb.mk d.2.company (q3EmpMap d.2.employees)) :: rest'
            = (l0 ++ [(d.1, CompanyEmb.mk d.2.company (q3EmpMap d.2.employees))]) ++ rest' by
          simp]
        rw [ih (l0 ++ [(d.1, CompanyEmb.mk d.2.company (q3EmpMap d.2.employees))])
          (by
            intro a ha b hb
            rcases List.mem_append.mp ha with h' | h'
            · exact hdisj a h' b (List.mem_cons_of_mem _ hb)
            · simp only [List.mem_singleton] at h'
              subst h'
              intro hab
              exact hdnotin (hab ▸ List.mem_map_of_mem Prod.fst hb))
          hnd']
        rw [List.map_cons]
        rw [show q3Doc3 d = (d.1, CompanyEmb.mk d.2.company (q3EmpMap d.2.employees)) by
          simp [q3Doc3, hm]]
        simp
      · rw [List.filter_cons, if_neg (by simpa using hm)]
        rw [show l0 ++ d :: rest' = (l0 ++ [d]) ++ rest' by simp]
        rw [ih (l0 ++ [d])
          (by
            intro a ha b hb
            rcases List.mem_append.mp ha with h' | h'
            · exact hdisj a h' b (List.mem_cons_of_mem _ hb)
            · simp only [List.mem_singleton] at h'
              subst h'
              intro hab
              exact hdnotin (hab ▸ List.mem_map_of_mem Prod.fst hb))
          hnd']
        rw [List.map_cons]
        rw [show q3Doc3 d = d by simp [q3Doc3, hm]]
        simp

/-- Under the store's `_id`-uniqueness invariant, model3's fetch-modify-save
Q3 loop is exactly the per-document map `q3Doc3`. -/
theorem q3_m3_eq_map (docs : List (Nat × CompanyEmb))
    (hnd : (docs.map Prod.fst).Nodup) :
    q3_m3 docs = docs.map q3Doc3 := by
  have h := q3_m3_fold docs [] (by simp) hnd
  simpa [q3_m3] using h

theorem q3Doc3_fst (d : Nat × CompanyEmb) : (q3Doc3 d).1 = d.1 := by
  by_cases hm : hasMatch d.2 <;> simp [q3Doc3, hm]

theorem q3Doc3_company (d : Nat × CompanyEmb) : (q3Doc3 d).2.company = d.2.company := by
  by_cases hm : hasMatch d.2 <;> simp [q3Doc3, hm]

theorem q3EmpMap_length (emps : List Person) : (q3EmpMap emps).length = emps.length := by
  simp [q3EmpMap]

theorem q3Doc3_employees_length (d : Nat × CompanyEmb) :
    (q3Doc3 d).2.employees.length = d.2.employees.length := by
  by_cases hm : hasMatch d.2 <;> simp [q3Doc3, hm, q3EmpMap_length]

theorem q3Doc3_employees_getElem (d : Nat × CompanyEmb) (j : Nat)
    (hj1 : j < d.2.employees.length) (hj2 : j < (q3Doc3 d).2.employees.length) :
    (q3Doc3 d).2.employees[j]
      = (if dateLt (d.2.employees[j]).dateOfBirth cutoff
         then { d.2.employees[j] with age := 30 } else d.2.employees[j]) := by
  by_cases hm : hasMatch d.2
  · simp [q3Doc3, hm, q3EmpMap]
  · have hall : dateLt (d.2.employees[j]).dateOfBirth cutoff = false := by
      by_contra hcon
      apply hm
      simp only [hasMatch, List.any_eq_true]
      exact ⟨d.2.employees[j], List.getElem_mem _,
        by simpa using hcon⟩
    simp [q3Doc3, hm, hall]

theorem any_dateLt_q3EmpMap (emps : List Person) :
    (q3EmpMap emps).any (fun e => dateLt e.dateOfBirth cutoff)
      = emps.any (fun e => dateLt e.dateOfBirth cutoff) := by
  induction emps with
  | nil => rfl
  | cons e es ih =>
      simp only [q3EmpMap, List.map_cons, List.any_cons] at *
      by_cases hc : dateLt e.dateOfBirth cutoff
      · simp [hc, ih]
      · simp [hc, ih]

theorem q3EmpMap_idem (emps : List Person) :
    q3EmpMap (q3EmpMap emps) = q3EmpMap emps := by
  simp only [q3EmpMap, List.map_map]
  apply map_congr_mem
  intro e _
  by_cases hc : dateLt e.dateOfBirth cutoff
  · simp [Function.comp, hc]
  · simp [Function.comp, hc]

theorem q3Doc3_idem (d : Nat × CompanyEmb) : q3Doc3 (q3Doc3 d) = q3Doc3 d := by
  by_cases hm : hasMatch d.2
  · have h1 : q3Doc3 d = (d.1, CompanyEmb.mk d.2.company (q3EmpMap d.2.employees)) := by
      simp [q3Doc3, hm]
    rw [h1]
    have hm2 : hasMatch (CompanyEmb.mk d.2.company (q3EmpMap d.2.employees)) = true := by
      simp only [hasMatch]
      rw [any_dateLt_q3EmpMap]
      simpa [hasMatch] using hm
    simp [q3Doc3, hm2, q3EmpMap_idem]
  · have h1 : q3Doc3 d = d := by simp [q3Doc3, hm]
    rw [h1, h1]

theorem q3_m3_map_fst (docs : List (Nat × CompanyEmb)) :
    (docs.map q3Doc3).map Prod.fst = docs.map Prod.fst := by
  rw [List.map_map]
  exact map_congr_mem (fun d _ => q3Doc3_fst d)

theorem q3_m1_idem (docs : List Doc1) : q3_m1 (q3_m1 docs) = q3_m1 docs := by
  simp only [q3_m1, List.map_map]
  apply map_congr_mem
  intro d _
  rcases d with ⟨i, b⟩
  cases b with
  | company c => rfl
  | person p cid =>
      by_cases hc : dateLt p.dateOfBirth cutoff
      · simp [Function.comp, hc]
      · simp [Function.comp, hc]

theorem q3_m2_idem (docs : List (Nat × PersonEmb)) : q3_m2 (q3_m2 docs) = q3_m2 docs := by
  simp only [q3_m2, List.map_map]
  apply map_congr_mem
  intro d _
  by_cases hc : dateLt d.2.person.dateOfBirth cutoff
  · simp [Function.comp, hc]
  · simp [Function.comp, hc]

theorem q3_m3_idem (docs : List (Nat × CompanyEmb))
    (hnd : (docs.map Prod.fst).Nodup) : q3_m3 (q3_m3 docs) = q3_m3 docs := by
  have hnd2 : ((q3_m3 docs).map Prod.fst).Nodup := by
    rw [q3_m3_eq_map docs hnd, q3_m3_map_fst]
    exact hnd
  rw [q3_m3_eq_map _ hnd2, q3_m3_eq_map docs hnd, List.map_map]
  exact map_congr_mem (fun d _ => q3Doc3_idem d)

theorem q3_m1_ages (Y : List Doc1) :
    ∀ d ∈ q3_m1 Y, ∀ p cid, d.2 = Doc1Body.person p cid →
      dateLt p.dateOfBirth cutoff = true → p.age = 30 := by
  intro d hd p cid hp hmatch
  simp only [q3_m1, List.mem_map] at hd
  obtain ⟨a, _, rfl⟩ := hd
  rcases a with ⟨iid, b⟩
  cases b with
  | company c =>
      dsimp only at hp
      cases hp
  | person p0 cid0 =>
      dsimp only at hp
      by_cases hc : dateLt p0.dateOfBirth cutoff
      · rw [if_pos hc] at hp
        dsimp only at hp
        cases hp
        rfl
      · rw [if_neg hc] at hp
        dsimp only at hp
        cases hp
        exact absurd hmatch hc

theorem q3_m2_ages (Y : List (Nat × PersonEmb)) :
    ∀ d ∈ q3_m2 Y, dateLt d.2.person.dateOfBirth cutoff = true →
      d.2.person.age = 30 := by
  intro d hd hmatch
  simp only [q3_m2, List.mem_map] at hd
  obtain ⟨a, _, rfl⟩ := hd
  by_cases hc : dateLt a.2.person.dateOfBirth cutoff
  · simp [hc]
  · simp only [if_neg hc] at hmatch ⊢
    exact absurd hmatch (by simpa using hc)

theorem q3_m3_ages (Y : List (Nat × CompanyEmb)) (hnd : (Y.map Prod.fst).Nodup) :
    ∀ d ∈ q3_m3 Y, ∀ e ∈ d.2.employees,
      dateLt e.dateOfBirth cutoff = true → e.age = 30 := by
  intro d hd e he hmatch
  rw [q3_m3_eq_map Y hnd] at hd
  simp only [List.mem_map] at hd
  obtain ⟨a, _, rfl⟩ := hd
  by_cases hm : hasMatch a.2
  · rw [show q3Doc3 a = (a.1, CompanyEmb.mk a.2.company (q3EmpMap a.2.employees)) by
      simp [q3Doc3, hm]] at he
    simp only [q3EmpMap, List.mem_map] at he
    obtain ⟨e0, _, rfl⟩ := he
    by_cases hc : dateLt e0.dateOfBirth cutoff
    · simp [hc]
    · rw [if_neg hc] at hmatch ⊢
      exact absurd hmatch (by simpa using hc)
  · rw [show q3Doc3 a = a by simp [q3Doc3, hm]] at he
    exfalso
    apply hm
    simp only [hasMatch, List.any_eq_true]
    exact ⟨e, he, by simpa using hmatch⟩

theorem q3_m1_getElem (docs : List Doc1) (i : Nat) (h1 : i < docs.length)
    (h2 : i < (q3_m1 docs).length) :
    (q3_m1 docs)[i] = (match docs[i].2 with
      | Doc1Body.person p cid =>
          if dateLt p.dateOfBirth cutoff
          then (docs[i].1, Doc1Body.person { p with age := 30 } cid)
          else docs[i]
      | Doc1Body.company _ => docs[i]) := by
  simp only [q3_m1, List.getElem_map]

theorem q3_m2_getElem (docs : List (Nat × PersonEmb)) (i : Nat) (h1 : i < docs.length)
    (h2 : i < (q3_m2 docs).length) :
    (q3_m2 docs)[i] = (if dateLt docs[i].2.person.dateOfBirth cutoff
      then (docs[i].1, { docs[i].2 with person := { docs[i].2.person with age := 30 } })
      else docs[i]) := by
  simp only [q3_m2, List.getElem_map]

theorem q3_m3_getElem (docs : List (Nat × CompanyEmb)) (hnd : (docs.map Prod.fst).Nodup)
    (i : Nat) (h1 : i < docs.length) (h2 : i < (q3_m3 docs).length) :
    (q3_m3 docs)[i] = q3Doc3 docs[i] := by
  have him : i < (docs.map q3Doc3).length := by simpa using h1
  have hEq : (q3_m3 docs)[i] = (docs.map q3Doc3)[i] := by
    simp only [q3_m3_eq_map docs hnd]
  rw [hEq, List.getElem_map]

/-- C3: Q3 is idempotent in every variant: a second run changes nothing
(`q3 (q3 docs) = q3 docs`), after the second run every person born strictly
before 1988-01-01 has age exactly 30, and every person born on or after the
cutoff is exactly the original entry.  The EmbeddedArray variant additionally
assumes the store's `_id`-uniqueness invariant for the stored documents. -/
theorem C3_q3_idempotent (A : List Doc1) (B : List (Nat × PersonEmb))
    (C : List (Nat × CompanyEmb)) (hnd : (C.map Prod.fst).Nodup) :
    (q3_m1 (q3_m1 A) = q3_m1 A) ∧
    (q3_m2 (q3_m2 B) = q3_m2 B) ∧
    (q3_m3 (q3_m3 C) = q3_m3 C) ∧
    (∀ d ∈ q3_m1 (q3_m1 A), ∀ p cid, d.2 = Doc1Body.person p cid →
       dateLt p.dateOfBirth cutoff = true → p.age = 30) ∧
    (∀ i (h1 : i < A.length) (h2 : i < (q3_m1 (q3_m1 A)).length),
       ∀ p cid, A[i].2 = Doc1Body.person p cid →
         dateLt p.dateOfBirth cutoff = false → (q3_m1 (q3_m1 A))[i] = A[i]) ∧
    (∀ d ∈ q3_m2 (q3_m2 B), dateLt d.2.person.dateOfBirth cutoff = true →
       d.2.person.age = 30) ∧
    (∀ i (h1 : i < B.length) (h2 : i < (q3_m2 (q3_m2 B)).length),
       dateLt B[i].2.person.dateOfBirth cutoff = false →
         (q3_m2 (q3_m2 B))[i] = B[i]) ∧
    (∀ d ∈ q3_m3 (q3_m3 C), ∀ e ∈ d.2.employees,
       dateLt e.dateOfBirth cutoff = true → e.age = 30) ∧
    (∀ i (h1 : i < C.length) (h2 : i < (q3_m3 (q3_m3 C)).length),
       ∀ j (hj1 : j < C[i].2.employees.length)
         (hj2 : j < ((q3_m3 (q3_m3 C))[i]).2.employees.length),
         dateLt (C[i].2.employees[j]).dateOfBirth cutoff = false →
           ((q3_m3 (q3_m3 C))[i]).2.employees[j] = C[i].2.employees[j]) := by
  have hnd2 : ((q3_m3 C).map Prod.fst).Nodup := by
    rw [q3_m3_eq_map C hnd, q3_m3_map_fst]
    exact hnd
  have hlen3 : (q3_m3 C).length = C.length := by
    rw [q3_m3_eq_map C hnd]
    simp
  refine ⟨q3_m1_idem A, q3_m2_idem B, q3_m3_idem C hnd,
    q3_m1_ages (q3_m1 A), ?_, q3_m2_ages (q3_m2 B), ?_,
    q3_m3_ages (q3_m3 C) hnd2, ?_⟩
  · intro i h1 h2 p cid hA hfalse
    simp only [q3_m1_idem] at h2 ⊢
    have h2' : i < (q3_m1 A).length := by simpa [q3_m1] using h1
    rw [q3_m1_getElem A i h1 h2', hA]
    dsimp only
    rw [if_neg (by simp [hfalse])]
  · intro i h1 h2 hfalse
    simp only [q3_m2_idem] at h2 ⊢
    have h2' : i < (q3_m2 B).length := by simpa [q3_m2] using h1
    rw [q3_m2_getElem B i h1 h2']
    rw [if_neg (by simp [hfalse])]
  · intro i h1 h2 j hj1 hj2 hfalse
    have h2' : i < (q3_m3 C).length := by omega
    have e1 : (q3_m3 (q3_m3 C))[i] = q3Doc3 C[i] := by
      rw [q3_m3_getElem (q3_m3 C) hnd2 i h2' h2,
        q3_m3_getElem C hnd i h1 h2', q3Doc3_idem]
    simp only [e1]
    have hj2' : j < (q3Doc3 C[i]).2.employees.length := by
      rw [q3Doc3_employees_length]
      exact hj1
    rw [q3Doc3_employees_getElem C[i] j hj1 hj2']
    rw [if_neg (by simp [hfalse])]

/-- A concrete Referenced collection: one company, one matching person
(born 1980), one non-matching person (born 1990). -/
def cA : List Doc1 :=
  [(0, Doc1Body.company (cProvider.company 0)),
   (1, Doc1Body.person (mkPerson ctoday (cProvider.person 0 0)) 0),
   (2, Doc1Body.person (mkPerson ctoday (cProvider.person 0 10)) 0)]

/-- A concrete EmbeddedSingle collection with one matching and one
non-matching person. -/
def cB : List (Nat × PersonEmb) :=
  [(0, PersonEmb.mk (mkPerson ctoday (cProvider.person 0 0)) (cProvider.company 0)),
   (1, PersonEmb.mk (mkPerson ctoday (cProvider.person 0 10)) (cProvider.company 0))]

/-- A concrete EmbeddedArray collection with one mixed company and one empty
company. -/
def cC : List (Nat × CompanyEmb) :=
  [(0, CompanyEmb.mk (cProvider.company 0)
     [mkPerson ctoday (cProvider.person 0 0), mkPerson ctoday (cProvider.person 0 10)]),
   (1, CompanyEmb.mk (cProvider.company 1) [])]

/-- Closed instance of C3 on the concrete collections. -/
theorem C3_q3_idempotent_witness :
    ((cC.map Prod.fst).Nodup) ∧
    ((q3_m1 (q3_m1 cA) = q3_m1 cA) ∧
     (q3_m2 (q3_m2 cB) = q3_m2 cB) ∧
     (q3_m3 (q3_m3 cC) = q3_m3 cC) ∧
     (∀ d ∈ q3_m1 (q3_m1 cA), ∀ p cid, d.2 = Doc1Body.person p cid →
        dateLt p.dateOfBirth cutoff = true → p.age = 30) ∧
     (∀ i (h1 : i < cA.length) (h2 : i < (q3_m1 (q3_m1 cA)).length),
        ∀ p cid, cA[i].2 = Doc1Body.person p cid →
          dateLt p.dateOfBirth cutoff = false → (q3_m1 (q3_m1 cA))[i] = cA[i]) ∧
     (∀ d ∈ q3_m2 (q3_m2 cB), dateLt d.2.person.dateOfBirth cutoff = true →
        d.2.person.age = 30) ∧
     (∀ i (h1 : i < cB.length) (h2 : i < (q3_m2 (q3_m2 cB)).length),
        dateLt cB[i].2.person.dateOfBirth cutoff = false →
          (q3_m2 (q3_m2 cB))[i] = cB[i]) ∧
     (∀ d ∈ q3_m3 (q3_m3 cC), ∀ e ∈ d.2.employees,
        dateLt e.dateOfBirth cutoff = true → e.age = 30) ∧
     (∀ i (h1 : i < cC.length) (h2 : i < (q3_m3 (q3_m3 cC)).length),
        ∀ j (hj1 : j < cC[i].2.employees.length)
          (hj2 : j < ((q3_m3 (q3_m3 cC))[i]).2.employees.length),
          dateLt (cC[i].2.employees[j]).dateOfBirth cutoff = false →
            ((q3_m3 (q3_m3 cC))[i]).2.employees[j] = cC[i].2.employees[j])) :=
  ⟨by decide, C3_q3_idempotent cA cB cC (by decide)⟩

/-- C4: in every variant one Q3 run sets `age := 30` for precisely the
persons born strictly before 1988-01-01 and changes nothing else: lengths and
ids are preserved, a matching person's entry changes only its `age` field
(the `with`-update keeps every other field), non-matching persons and company
data are returned exactly unchanged.  The EmbeddedArray variant assumes the
store's `_id`-uniqueness invariant. -/
theorem C4_q3_frame (A : List Doc1) (B : List (Nat × PersonEmb))
    (C : List (Nat × CompanyEmb)) (hnd : (C.map Prod.fst).Nodup) :
    ((q3_m1 A).length = A.length) ∧
    (∀ i (h1 : i < A.length) (h2 : i < (q3_m1 A).length),
       (∀ c, A[i].2 = Doc1Body.company c → (q3_m1 A)[i] = A[i]) ∧
       (∀ p cid, A[i].2 = Doc1Body.person p cid →
          (dateLt p.dateOfBirth cutoff = false → (q3_m1 A)[i] = A[i]) ∧
          (dateLt p.dateOfBirth cutoff = true →
             (q3_m1 A)[i] = (A[i].1, Doc1Body.person { p with age := 30 } cid)))) ∧
    ((q3_m2 B).length = B.length) ∧
    (∀ i (h1 : i < B.length) (h2 : i < (q3_m2 B).length),
       (dateLt B[i].2.person.dateOfBirth cutoff = false → (q3_m2 B)[i] = B[i]) ∧
       (dateLt B[i].2.person.dateOfBirth cutoff = true →
          (q3_m2 B)[i] = (B[i].1,
            { B[i].2 with person := { B[i].2.person with age := 30 } }))) ∧
    ((q3_m3 C).length = C.length) ∧
    (∀ i (h1 : i < C.length) (h2 : i < (q3_m3 C).length),
       ((q3_m3 C)[i]).1 = C[i].1 ∧
       ((q3_m3 C)[i]).2.company = C[i].2.company ∧
       ((q3_m3 C)[i]).2.employees.length = C[i].2.employees.length ∧
       (∀ j (hj1 : j < C[i].2.employees.length)
          (hj2 : j < ((q3_m3 C)[i]).2.employees.length),
          ((q3_m3 C)[i]).2.employees[j]
            = (if dateLt (C[i].2.employees[j]).dateOfBirth cutoff
               then { C[i].2.employees[j] with age := 30 }
               else C[i].2.employees[j]))) := by
  refine ⟨by simp [q3_m1], ?_, by simp [q3_m2], ?_, ?_, ?_⟩
  · intro i h1 h2
    constructor
    · intro c hc
      rw [q3_m1_getElem A i h1 h2, hc]
    · intro p cid hp
      constructor
      · intro hfalse
        rw [q3_m1_getElem A i h1 h2, hp]
        dsimp only
        rw [if_neg (by simp [hfalse])]
      · intro htrue
        rw [q3_m1_getElem A i h1 h2, hp]
        dsimp only
        rw [if_pos htrue]
  · intro i h1 h2
    constructor
    · intro hfalse
      rw [q3_m2_getElem B i h1 h2]
      rw [if_neg (by simp [hfalse])]
    · intro htrue
      rw [q3_m2_getElem B i h1 h2]
      rw [if_pos htrue]
  · rw [q3_m3_eq_map C hnd]
    simp
  · intro i h1 h2
    rw [q3_m3_getElem C hnd i h1 h2]
    refine ⟨q3Doc3_fst C[i], q3Doc3_company C[i], q3Doc3_employees_length C[i], ?_⟩
    intro j hj1 hj2
    exact q3Doc3_employees_getElem C[i] j hj1 hj2

/-- Closed instance of C4 on the concrete collections. -/
theorem C4_q3_frame_witness :
    ((cC.map Prod.fst).Nodup) ∧
    (((q3_m1 cA).length = cA.length) ∧
     (∀ i (h1 : i < cA.length) (h2 : i < (q3_m1 cA).length),
        (∀ c, cA[i].2 = Doc1Body.company c → (q3_m1 cA)[i] = cA[i]) ∧
        (∀ p cid, cA[i].2 = Doc1Body.person p cid →
           (dateLt p.dateOfBirth cutoff = false → (q3_m1 cA)[i] = cA[i]) ∧
           (dateLt p.dateOfBirth cutoff = true →
              (q3_m1 cA)[i] = (cA[i].1, Doc1Body.person { p with age := 30 } cid)))) ∧
     ((q3_m2 cB).length = cB.length) ∧
     (∀ i (h1 : i < cB.length) (h2 : i < (q3_m2 cB).length),
        (dateLt cB[i].2.person.dateOfBirth cutoff = false → (q3_m2 cB)[i] = cB[i]) ∧
        (dateLt cB[i].2.person.dateOfBirth cutoff = true →
           (q3_m2 cB)[i] = (cB[i].1,
             { cB[i].2 with person := { cB[i].2.person with age := 30 } }))) ∧
     ((q3_m3 cC).length = cC.length) ∧
     (∀ i (h1 : i < cC.length) (h2 : i < (q3_m3 cC).length),
        ((q3_m3 cC)[i]).1 = cC[i].1 ∧
        ((q3_m3 cC)[i]).2.company = cC[i].2.company ∧
        ((q3_m3 cC)[i]).2.employees.length = cC[i].2.employees.length ∧
        (∀ j (hj1 : j < cC[i].2.employees.length)
           (hj2 : j < ((q3_m3 cC)[i]).2.employees.length),
           ((q3_m3 cC)[i]).2.employees[j]
             = (if dateLt (cC[i].2.employees[j]).dateOfBirth cutoff
                then { cC[i].2.employees[j] with age := 30 }
                else cC[i].2.employees[j])))) :=
  ⟨by decide, C4_q3_frame cA cB cC (by decide)⟩

/-- The Acme company of the spec's end-to-end Q4 scenario. -/
def acme : Company :=
  { domain := "acme.com", email := "info@acme.com", name := "Acme",
    url := "http://acme.com", vatNumber := "AB12345678" }

/-- C5: one Q4 run appends `" Company"` exactly once to every stored copy of
a company name (the company documents in Referenced and EmbeddedArray, each
person's embedded copy in EmbeddedSingle), leaves everything else unchanged,
and is non-idempotent: a second run appends the suffix again, so `"Acme"`
becomes `"Acme Company"` then `"Acme Company Company"`. -/
theorem C5_q4_append (A : List Doc1) (B : List (Nat × PersonEmb))
    (C : List (Nat × CompanyEmb)) :
    ((q4_m1 A).length = A.length) ∧
    ((q4_m1 (q4_m1 A)).length = A.length) ∧
    (∀ i (h1 : i < A.length) (h2 : i < (q4_m1 A).length)
       (h3 : i < (q4_m1 (q4_m1 A)).length),
       (∀ p cid, A[i].2 = Doc1Body.person p cid → (q4_m1 A)[i] = A[i]) ∧
       (∀ c, A[i].2 = Doc1Body.company c →
          (q4_m1 A)[i] = (A[i].1, Doc1Body.company { c with name := c.name ++ " Company" }) ∧
          (q4_m1 (q4_m1 A))[i] = (A[i].1,
            Doc1Body.company { c with name := (c.name ++ " Company") ++ " Company" }))) ∧
    ((q4_m2 B).length = B.length) ∧
    (∀ i (h1 : i < B.length) (h2 : i < (q4_m2 B).length)
       (h3 : i < (q4_m2 (q4_m2 B)).length),
       (q4_m2 B)[i] = (B[i].1, { B[i].2 with company :=
          { B[i].2.company with name := B[i].2.company.name ++ " Company" } }) ∧
       (q4_m2 (q4_m2 B))[i] = (B[i].1, { B[i].2 with company :=
          { B[i].2.company with name := (B[i].2.company.name ++ " Company") ++ " Company" } })) ∧
    ((q4_m3 C).length = C.length) ∧
    (∀ i (h1 : i < C.length) (h2 : i < (q4_m3 C).length)
       (h3 : i < (q4_m3 (q4_m3 C)).length),
       (q4_m3 C)[i] = (C[i].1, { C[i].2 with company :=
          { C[i].2.company with name := C[i].2.company.name ++ " Company" } }) ∧
       (q4_m3 (q4_m3 C))[i] = (C[i].1, { C[i].2 with company :=
          { C[i].2.company with name := (C[i].2.company.name ++ " Company") ++ " Company" } })) ∧
    (q4_m1 [(0, Doc1Body.company acme)]
       = [(0, Doc1Body.company { acme with name := "Acme Company" })]) ∧
    (q4_m1 (q4_m1 [(0, Doc1Body.company acme)])
       = [(0, Doc1Body.company { acme with name := "Acme Company Company" })]) := by
  refine ⟨by simp [q4_m1], by simp [q4_m1], ?_, by simp [q4_m2], ?_,
    by simp [q4_m3], ?_, by decide, by decide⟩
  · intro i h1 h2 h3
    have h2' : i < (q4_m1 A).length := h2
    constructor
    · intro p cid hp
      simp only [q4_m1, List.getElem_map, hp]
    · intro c hc
      constructor
      · simp only [q4_m1, List.getElem_map, hc]
      · simp only [q4_m1, List.getElem_map, hc]
  · intro i h1 h2 h3
    constructor
    · simp only [q4_m2, List.getElem_map]
    · simp only [q4_m2, List.getElem_map]
  · intro i h1 h2 h3
    constructor
    · simp only [q4_m3, List.getElem_map]
    · simp only [q4_m3, List.getElem_map]

/-- Closed instance of C5 on the concrete collections. -/
theorem C5_q4_append_witness :
    ((q4_m1 cA).length = cA.length) ∧
    ((q4_m1 (q4_m1 cA)).length = cA.length) ∧
    (∀ i (h1 : i < cA.length) (h2 : i < (q4_m1 cA).length)
       (h3 : i < (q4_m1 (q4_m1 cA)).length),
       (∀ p cid, cA[i].2 = Doc1Body.person p cid → (q4_m1 cA)[i] = cA[i]) ∧
       (∀ c, cA[i].2 = Doc1Body.company c →
          (q4_m1 cA)[i] = (cA[i].1, Doc1Body.company { c with name := c.name ++ " Company" }) ∧
          (q4_m1 (q4_m1 cA))[i] = (cA[i].1,
            Doc1Body.company { c with name := (c.name ++ " Company") ++ " Company" }))) ∧
    ((q4_m2 cB).length = cB.length) ∧
    (∀ i (h1 : i < cB.length) (h2 : i < (q4_m2 cB).length)
       (h3 : i < (q4_m2 (q4_m2 cB)).length),
       (q4_m2 cB)[i] = (cB[i].1, { cB[i].2 with company :=
          { cB[i].2.company with name := cB[i].2.company.name ++ " Company" } }) ∧
       (q4_m2 (q4_m2 cB))[i] = (cB[i].1, { cB[i].2 with company :=
          { cB[i].2.company with name := (cB[i].2.company.name ++ " Company") ++ " Company" } })) ∧
    ((q4_m3 cC).length = cC.length) ∧
    (∀ i (h1 : i < cC.length) (h2 : i < (q4_m3 cC).length)
       (h3 : i < (q4_m3 (q4_m3 cC)).length),
       (q4_m3 cC)[i] = (cC[i].1, { cC[i].2 with company :=
          { cC[i].2.company with name := cC[i].2.company.name ++ " Company" } }) ∧
       (q4_m3 (q4_m3 cC))[i] = (cC[i].1, { cC[i].2 with company :=
          { cC[i].2.company with name := (cC[i].2.company.name ++ " Company") ++ " Company" } })) ∧
    (q4_m1 [(0, Doc1Body.company acme)]
       = [(0, Doc1Body.company { acme with name := "Acme Company" })]) ∧
    (q4_m1 (q4_m1 [(0, Doc1Body.company acme)])
       = [(0, Doc1Body.company { acme with name := "Acme Company Company" })]) :=
  C5_q4_append cA cB cC

theorem bfold_exact (bs : Nat) (hbs : 1 ≤ bs) (docs : List α) :
    ∀ (fs : List (List α)) (buf : List α), buf.length < bs →
      (∀ f ∈ (docs.foldl (bstep bs) (fs, buf)).1, f ∈ fs ∨ f.length = bs)
      ∧ (docs.foldl (bstep bs) (fs, buf)).2.length < bs := by
  induction docs with
  | nil =>
      intro fs buf h
      exact ⟨fun f hf => .inl hf, h⟩
  | cons d ds ih =>
      intro fs buf hbuf
      simp only [List.foldl_cons]
      by_cases hc : bs ≤ (buf ++ [d]).length
      · have hc' : bs ≤ buf.length + 1 := by simpa using hc
        have hstep : bstep bs (fs, buf) d = (fs ++ [buf ++ [d]], []) := by
          simp [bstep, hc']
        rw [hstep]
        obtain ⟨h1, h2⟩ := ih (fs ++ [buf ++ [d]]) [] hbs
        refine ⟨?_, h2⟩
        intro f hf
        rcases h1 f hf with hmem | hlen
        · rcases List.mem_append.mp hmem with h' | h'
          · exact .inl h'
          · right
            simp only [List.mem_singleton] at h'
            subst h'
            simp only [List.length_append, List.length_cons, List.length_nil]
            omega
        · exact .inr hlen
      · have hc' : ¬ bs ≤ buf.length + 1 := by simpa using hc
        have hstep : bstep bs (fs, buf) d = (fs, buf ++ [d]) := by
          simp [bstep, hc']
        rw [hstep]
        exact ih fs (buf ++ [d]) (by simp only [List.length_append]; simp; omega)

/-- C8: with a positive batch size, the generation loop's buffering flushes
(and clears) the buffer exactly when it reaches the batch size — every
in-loop flush has length exactly `batch_size` — the post-loop flush emits the
remainder exactly when it is non-empty (an empty remainder is a no-op), the
flushed batches concatenate back to the generated document sequence (each
document inserted exactly once, in order), no flush is empty, and the buffer
never holds more than `batch_size` documents: after any prefix of the loop it
holds strictly fewer. -/
theorem C8_batch_writer {α : Type} (bs : Nat) (docs : List α) (h : 1 ≤ bs) :
    ((batchWriter bs docs).flatten = docs) ∧
    (∀ f ∈ (bflushes bs docs).1, f.length = bs) ∧
    ((bflushes bs docs).2.length < bs) ∧
    ((bflushes bs docs).2 = [] → batchWriter bs docs = (bflushes bs docs).1) ∧
    ((bflushes bs docs).2 ≠ [] →
       batchWriter bs docs = (bflushes bs docs).1 ++ [(bflushes bs docs).2]) ∧
    (∀ f ∈ batchWriter bs docs, f ≠ []) ∧
    (∀ k, ((docs.take k).foldl (bstep bs) ([], [])).2.length < bs) := by
  obtain ⟨hex, hbuf⟩ := bfold_exact bs h docs [] [] (by simpa using h)
  refine ⟨batchWriter_flatten bs docs, ?_, hbuf, ?_, ?_,
    batchWriter_ne_nil bs docs, ?_⟩
  · intro f hf
    rcases hex f hf with hmem | hlen
    · cases hmem
    · exact hlen
  · intro hempty
    simp only [bflushes] at hempty
    simp [batchWriter, bflushes, List.isEmpty_iff, hempty]
  · intro hne
    simp only [bflushes] at hne
    simp [batchWriter, bflushes, List.isEmpty_iff, hne]
  · intro k
    exact (bfold_exact bs h (docs.take k) [] [] (by simpa using h)).2

/-- Closed instance of C8 at `batch_size = 2` over five documents. -/
theorem C8_batch_writer_witness :
    1 ≤ 2 ∧
    (((batchWriter 2 [10, 20, 30, 40, 50]).flatten = [10, 20, 30, 40, 50]) ∧
     (∀ f ∈ (bflushes 2 [10, 20, 30, 40, 50]).1, f.length = 2) ∧
     ((bflushes 2 [10, 20, 30, 40, 50]).2.length < 2) ∧
     ((bflushes 2 [10, 20, 30, 40, 50]).2 = [] →
        batchWriter 2 [10, 20, 30, 40, 50] = (bflushes 2 [10, 20, 30, 40, 50]).1) ∧
     ((bflushes 2 [10, 20, 30, 40, 50]).2 ≠ [] →
        batchWriter 2 [10, 20, 30, 40, 50]
          = (bflushes 2 [10, 20, 30, 40, 50]).1 ++ [(bflushes 2 [10, 20, 30, 40, 50]).2]) ∧
     (∀ f ∈ batchWriter 2 [10, 20, 30, 40, 50], f ≠ []) ∧
     (∀ k, (([10, 20, 30, 40, 50].take k).foldl (bstep 2) ([], [])).2.length < 2)) :=
  ⟨by decide, C8_batch_writer 2 [10, 20, 30, 40, 50] (by decide)⟩

end MongoLab
